import Mathlib

/-!
# Assignment6.cpp: an interactive bank-account ledger

A shallow embedding of `src/Assignment6.cpp` and the properties its
specification states about it.

Modelling decisions.

* `double` is the type `Double` of IEEE 754 binary64 values: signed zeros,
  subnormal and normal numbers, infinities and NaN.  A finite value is a sign,
  a significand below `2 ^ 53` and a binary exponent from `-1074` to `971`.
  Addition and subtraction give the exact result rounded to the nearest
  value, ties to even (`Double.round`); a decimal numeral is converted to the
  nearest value in the same way; comparisons are those of IEEE 754.
* `std::cin` and the `std::ifstream` of `loadHistory` are values of `IStream`:
  the characters not yet consumed together with the `eofbit` and `failbit`
  state flags (`badbit` is never set by the operations used here).  The end of
  the character list is the end of the input.  The extraction of a `double`
  follows `num_get`: the characters of a decimal floating literal are
  collected and converted; a literal whose value is too large for a `double`
  makes the extraction fail, one too small is read as zero.
* `std::cout` is a list of output items `Out`, one per `<<` insertion of a
  string, a character or a number; the stream manipulators (`setw`, `left`,
  `fixed`, `setprecision`) only change how an item is laid out and insert
  nothing by themselves, so they do not appear.
* The text written by `saveHistory` is a list of characters; the `ofstream` is
  freshly opened, so a `double` is written under the default format (general
  notation, six significant digits of the exact binary value), which is
  `formatDouble`.
* `currentTimestamp()` reads the clock; the value it returns is a parameter.
* A missing data file is `none`, an existing one is `some` of its characters;
  the file can always be opened for writing by `saveHistory`.
-/

namespace Assignment6

/-! ## Binary64 numbers -/

/-- Value of a `double`.  `finite neg m e` is the number `± m * 2 ^ e`. -/
inductive Double where
  | finite (neg : Bool) (m : Nat) (e : Int)
  | inf (neg : Bool)
  | nan
deriving DecidableEq

/-- Quotient `num / den` rounded to the nearest integer, ties to even. -/
def roundDiv (num den : Nat) : Nat :=
  if 2 * (num % den) < den then num / den
  else if den < 2 * (num % den) then num / den + 1
  else if (num / den) % 2 = 0 then num / den else num / den + 1

/-- Number of binary digits of `n`; the fuel bounds the number of halvings. -/
def bitLength : Nat → Nat → Nat
  | 0, _ => 0
  | fuel + 1, n => if n = 0 then 0 else bitLength fuel (n / 2) + 1

/-- Integer part of the binary logarithm of a positive natural number. -/
def log2Nat (n : Nat) : Nat := bitLength n n - 1

/-- Integer part of the binary logarithm of the positive number `n / d`. -/
def floorLog2 (n d : Nat) : Int :=
  if d * 2 ^ ((log2Nat n : Int) - (log2Nat d : Int)).toNat
      ≤ n * 2 ^ ((log2Nat d : Int) - (log2Nat n : Int)).toNat
  then (log2Nat n : Int) - (log2Nat d : Int)
  else (log2Nat n : Int) - (log2Nat d : Int) - 1

/-- Binary exponent of the `double` that holds the positive number `n / d`:
the significand has 53 bits, and the exponent is not below `-1074`. -/
def binExponent (n d : Nat) : Int := max (floorLog2 n d - 52) (-1074)

/-- Number `n / (d * 2 ^ e)` rounded to an integer, ties to even. -/
def scaleRound (n d : Nat) (e : Int) : Nat :=
  roundDiv (n * 2 ^ (-e).toNat) (d * 2 ^ e.toNat)

/-- The positive number `n / d`, with the sign `neg`, rounded to the nearest
`double`, ties to even; infinity when the rounded number is out of range. -/
def Double.round (neg : Bool) (n d : Nat) : Double :=
  if scaleRound n d (binExponent n d) = 2 ^ 53 then
    if 971 < binExponent n d + 1 then .inf neg
    else .finite neg (2 ^ 52) (binExponent n d + 1)
  else if 971 < binExponent n d then .inf neg
  else .finite neg (scaleRound n d (binExponent n d)) (binExponent n d)

/-- Positive zero. -/
def Double.zero : Double := .finite false 0 (-1074)

/-- The `double` nearest to a natural number: the value of a literal of the
source such as `500.00`. -/
def Double.ofNat (n : Nat) : Double :=
  if n = 0 then Double.zero else Double.round false n 1

/-- The `double` nearest to the number `± m * 10 ^ e` written as a decimal
numeral; a numeral of value zero gives the zero of its sign. -/
def Double.ofDecimal (neg : Bool) (m : Nat) (e : Int) : Double :=
  if m = 0 then .finite neg 0 (-1074)
  else Double.round neg (m * 10 ^ e.toNat) (10 ^ (-e).toNat)

/-- Apply a sign to a magnitude. -/
def signed (neg : Bool) (n : Nat) : Int := if neg then -(n : Int) else (n : Int)

/-- The finite value `± m * 2 ^ e` as an integer multiple of `2 ^ e0`, for an
exponent `e0 ≤ e`. -/
def aligned (neg : Bool) (m : Nat) (e e0 : Int) : Int := signed neg (m * 2 ^ (e - e0).toNat)

/-- The number `± n * 2 ^ e` rounded to the nearest `double`. -/
def Double.roundScaled (neg : Bool) (n : Nat) (e : Int) : Double :=
  Double.round neg (n * 2 ^ e.toNat) (2 ^ (-e).toNat)

/-- Exact value of a finite `double`; 0 for an infinity and for NaN. -/
def Double.toRat : Double → ℚ
  | .finite neg m e => mkRat (signed neg (m * 2 ^ e.toNat)) (2 ^ (-e).toNat)
  | .inf _ => 0
  | .nan => 0

/-- Unary minus. -/
def Double.neg : Double → Double
  | .finite neg m e => .finite (!neg) m e
  | .inf neg => .inf (!neg)
  | .nan => .nan

/-- Sum of two finite values: the exact sum, computed in units of the smaller
exponent, rounded; an exact sum of zero is `+0` unless both terms are
negative. -/
def Double.addFinite (s1 : Bool) (m1 : Nat) (e1 : Int) (s2 : Bool) (m2 : Nat) (e2 : Int) :
    Double :=
  if aligned s1 m1 e1 (min e1 e2) + aligned s2 m2 e2 (min e1 e2) = 0 then
    .finite (s1 && s2) 0 (-1074)
  else
    Double.roundScaled
      (decide (aligned s1 m1 e1 (min e1 e2) + aligned s2 m2 e2 (min e1 e2) < 0))
      (aligned s1 m1 e1 (min e1 e2) + aligned s2 m2 e2 (min e1 e2)).natAbs
      (min e1 e2)

/-- Operator `+` of `double`. -/
def Double.add : Double → Double → Double
  | .nan, _ => .nan
  | .inf _, .nan => .nan
  | .inf s, .inf t => if s = t then .inf s else .nan
  | .inf s, .finite _ _ _ => .inf s
  | .finite _ _ _, .nan => .nan
  | .finite _ _ _, .inf t => .inf t
  | .finite s1 m1 e1, .finite s2 m2 e2 => Double.addFinite s1 m1 e1 s2 m2 e2

/-- Operator `-` of `double`: the sum with the opposite. -/
def Double.sub (a b : Double) : Double := a.add b.neg

/-- Comparison `a < b` of `double`; false when an operand is NaN. -/
def Double.lt : Double → Double → Bool
  | .nan, _ => false
  | .inf _, .nan => false
  | .inf s, .inf t => s && !t
  | .inf s, .finite _ _ _ => s
  | .finite _ _ _, .nan => false
  | .finite _ _ _, .inf t => !t
  | .finite s1 m1 e1, .finite s2 m2 e2 =>
    decide (aligned s1 m1 e1 (min e1 e2) < aligned s2 m2 e2 (min e1 e2))

/-- Comparison `a <= b` of `double`; false when an operand is NaN. -/
def Double.le : Double → Double → Bool
  | .nan, _ => false
  | .inf _, .nan => false
  | .inf s, .inf t => s || !t
  | .inf s, .finite _ _ _ => s
  | .finite _ _ _, .nan => false
  | .finite _ _ _, .inf t => !t
  | .finite s1 m1 e1, .finite s2 m2 e2 =>
    decide (aligned s1 m1 e1 (min e1 e2) ≤ aligned s2 m2 e2 (min e1 e2))

/-- A value that is neither an infinity nor NaN. -/
def Double.isFinite : Double → Bool
  | .finite _ _ _ => true
  | .inf _ => false
  | .nan => false

/-! ## Data model -/

/-- Transaction record (`struct Transaction`). -/
structure Transaction where
  amount : Double
  type : Char
  timestamp : String
deriving DecidableEq

/-- The data members of `class BankAccount`. -/
structure BankAccount where
  balance : Double
  history : List Transaction
  dataFile : String
deriving DecidableEq

/-- One insertion into `std::cout`. -/
inductive Out where
  | str (s : String)
  | chr (c : Char)
  | num (x : Double)
deriving DecidableEq

/-! ## Input streams -/

/-- An input stream: unread characters and the two state flags. -/
structure IStream where
  buf : List Char
  eofbit : Bool
  failbit : Bool
deriving DecidableEq

/-- A freshly opened stream over the given characters. -/
def IStream.fresh (cs : List Char) : IStream :=
  { buf := cs, eofbit := false, failbit := false }

/-- Value of `good()`: no flag is set. -/
def IStream.good (s : IStream) : Bool := !s.eofbit && !s.failbit

/-- Value of `operator bool`: `!fail()`. -/
def IStream.ok (s : IStream) : Bool := !s.failbit

/-- Effect of `clear()`. -/
def IStream.clear (s : IStream) : IStream :=
  { s with eofbit := false, failbit := false }

/-- Whitespace of the classic locale (`std::isspace`). -/
def isSpace (c : Char) : Bool :=
  c == ' ' || c == '\t' || c == '\n' || c == '\x0b' || c == '\x0c' || c == '\r'

/-- Drop leading whitespace. -/
def skipWs : List Char → List Char
  | [] => []
  | c :: cs => if isSpace c then skipWs cs else c :: cs

/-- Sentry of a formatted input function (`skipws` is set): fails on a stream
that is not good, otherwise skips whitespace and fails at the end of input.
On success it gives the first character and the characters after it. -/
def sentry (s : IStream) : Except IStream (Char × List Char) :=
  if s.good then
    match skipWs s.buf with
    | [] => .error { buf := [], eofbit := true, failbit := true }
    | c :: cs => .ok (c, cs)
  else .error { s with failbit := true }

/-- Leading decimal digits: accumulated value, number of digits, the rest. -/
def scanDigits : List Char → Nat → Nat → Nat × Nat × List Char
  | [], acc, cnt => (acc, cnt, [])
  | c :: cs, acc, cnt =>
    if c.isDigit then scanDigits cs (10 * acc + (c.toNat - 48)) (cnt + 1)
    else (acc, cnt, c :: cs)

/-- Optional sign: `true` for a minus sign. -/
def scanSign : List Char → Bool × List Char
  | [] => (false, [])
  | c :: cs => if c = '-' then (true, cs) else if c = '+' then (false, cs) else (false, c :: cs)

/-- Exponent part that follows the mantissa digits `m`, of sign `neg` and
with `fc` fraction digits. -/
def scanExponent (neg : Bool) (m : Nat) (fc : Nat) :
    List Char → Option (Bool × Nat × Int) × List Char
  | [] => (some (neg, m, -(fc : Int)), [])
  | c :: cs =>
    if c = 'e' ∨ c = 'E' then
      match scanSign cs with
      | (eneg, r3) =>
        match scanDigits r3 0 0 with
        | (ev, ec, r4) =>
          if ec = 0 then (none, r4) else (some (neg, m, signed eneg ev - (fc : Int)), r4)
    else (some (neg, m, -(fc : Int)), c :: cs)

/-- Fraction part that follows the integer digits (`ip` their value). -/
def scanFraction (ip : Nat) : List Char → Nat × Nat × List Char
  | [] => (ip, 0, [])
  | c :: cs => if c = '.' then scanDigits cs ip 0 else (ip, 0, c :: cs)

/-- Decimal floating literal accepted by `num_get` for a `double`:
`[sign] digits [. digits] [(e|E) [sign] digits]` with at least one mantissa
digit.  The result is sign, mantissa digits and decimal exponent, or `none`
when the characters read are not a number, and the characters not consumed. -/
def scanFloat (cs : List Char) : Option (Bool × Nat × Int) × List Char :=
  match scanSign cs with
  | (neg, r0) =>
    match scanDigits r0 0 0 with
    | (ip, ic, r1) =>
      match scanFraction ip r1 with
      | (mp, fc, r2) =>
        if ic + fc = 0 then (none, r2) else scanExponent neg mp fc r2

/-- Decimal integer literal accepted by `num_get` for an `int`:
`[sign] digits` with at least one digit. -/
def scanInt (cs : List Char) : Option Int × List Char :=
  match scanSign cs with
  | (neg, r0) =>
    match scanDigits r0 0 0 with
    | (v, cnt, r1) => if cnt = 0 then (none, r1) else (some (signed neg v), r1)

/-- Number denoted by a decimal numeral of sign `neg`, mantissa digits `m`
and decimal exponent `e`, as an exact rational. -/
def decimalValue (neg : Bool) (m : Nat) (e : Int) : ℚ :=
  mkRat (signed neg (m * 10 ^ e.toNat)) (10 ^ (-e).toNat)

/-- Extraction `is >> c` of a `char`. -/
def extractChar (s : IStream) : Option Char × IStream :=
  match sentry s with
  | .error s1 => (none, s1)
  | .ok (c, cs) => (some c, { buf := cs, eofbit := false, failbit := false })

/-- Extraction `is >> x` of a `double`.  `eofbit` is set when the scan ran
into the end of the input, `failbit` when no number was read or when the
number read is too large for a `double` (its conversion gives an infinity).
A number too small for a `double` is read as the zero of its sign. -/
def extractDouble (s : IStream) : Option Double × IStream :=
  match sentry s with
  | .error s1 => (none, s1)
  | .ok (c, cs) =>
    match scanFloat (c :: cs) with
    | (none, rest) => (none, { buf := rest, eofbit := rest.isEmpty, failbit := true })
    | (some (neg, m, e), rest) =>
      if (Double.ofDecimal neg m e).isFinite then
        (some (Double.ofDecimal neg m e),
         { buf := rest, eofbit := rest.isEmpty, failbit := false })
      else (none, { buf := rest, eofbit := rest.isEmpty, failbit := true })

/-! ## Deposits and withdrawals -/

/-- Message of a refused deposit. -/
def depositInvalid : Out := .str "Invalid! Deposit must be positive.\n"

/-- Message of a refused withdrawal. -/
def withdrawalInvalid : Out := .str "Invalid! Must be >0 and <= current balance.\n"

/-- Method `BankAccount::makeDeposit`. -/
def makeDeposit (a : BankAccount) (cin : IStream) (now : String) :
    BankAccount × IStream × List Out :=
  match extractDouble cin with
  | (none, cin1) => (a, cin1, [.str "Enter deposit amount: $", depositInvalid])
  | (some amt, cin1) =>
    if amt.le Double.zero then (a, cin1, [.str "Enter deposit amount: $", depositInvalid])
    else
      ({ a with balance := a.balance.add amt,
                history := a.history ++ [{ amount := amt, type := 'D', timestamp := now }] },
       cin1, [.str "Enter deposit amount: $", .str "Deposited $", .num amt, .str ".\n"])

/-- Method `BankAccount::makeWithdrawal`. -/
def makeWithdrawal (a : BankAccount) (cin : IStream) (now : String) :
    BankAccount × IStream × List Out :=
  match extractDouble cin with
  | (none, cin1) => (a, cin1, [.str "Enter withdrawal amount: $", withdrawalInvalid])
  | (some amt, cin1) =>
    if amt.le Double.zero || a.balance.lt amt then
      (a, cin1, [.str "Enter withdrawal amount: $", withdrawalInvalid])
    else
      ({ a with balance := a.balance.sub amt,
                history := a.history ++ [{ amount := amt, type := 'W', timestamp := now }] },
       cin1, [.str "Enter withdrawal amount: $", .str "Withdrew $", .num amt, .str ".\n"])

/-! ## Loading the history -/

/-- Characters before the first newline, the characters after it, and whether
the end of the input was met before any newline. -/
def splitLine : List Char → List Char × List Char × Bool
  | [] => ([], [], true)
  | c :: cs =>
    if c = '\n' then ([], cs, false)
    else match splitLine cs with
      | (l, r, e) => (c :: l, r, e)

/-- Call `std::getline(is, str)`: on a stream that is not good the string is
left as it was; otherwise it receives the rest of the line. -/
def getline (s : IStream) (str : String) : String × IStream :=
  if s.good then
    match splitLine s.buf with
    | (l, r, e) => (String.mk l, { buf := r, eofbit := e, failbit := e && l.isEmpty })
  else (str, { s with failbit := true })

/-- Statement `if (!ts.empty() && ts[0] == ' ') ts.erase(0, 1);`. -/
def eraseLeadingSpace (ts : String) : String :=
  match ts.data with
  | [] => ts
  | c :: cs => if c = ' ' then String.mk cs else ts

/-- Amount by which a replayed record changes the balance:
`(type == 'D') ? amt : -amt`. -/
def replayDelta (type : Char) (amt : Double) : Double := if type = 'D' then amt else amt.neg

/-- The loop condition `fin >> type >> amt`: the kind character and the
amount when both extractions succeed, and the stream afterwards.  After a
failed `fin >> type` the extraction of the amount is still attempted, on the
failed stream. -/
def extractRecord (fin : IStream) : Option (Char × Double) × IStream :=
  match extractChar fin with
  | (none, fin1) => (none, (extractDouble fin1).2)
  | (some type, fin1) =>
    match extractDouble fin1 with
    | (none, fin2) => (none, fin2)
    | (some amt, fin2) => (some (type, amt), fin2)

/-- The `while (fin >> type >> amt)` loop of `loadHistory`; `ts` is the local
string that `getline` fills.  Every round consumes characters, so the length
of the input bounds the number of rounds (`fuel`). -/
def loadLoop : Nat → IStream → String → BankAccount → BankAccount
  | 0, _, _, a => a
  | fuel + 1, fin, ts, a =>
    match extractRecord fin with
    | (none, _) => a
    | (some (type, amt), fin2) =>
      match getline fin2 ts with
      | (line, fin3) =>
        loadLoop fuel fin3 (eraseLeadingSpace line)
          { a with history := a.history ++
                     [{ amount := amt, type := type, timestamp := eraseLeadingSpace line }],
                   balance := a.balance.add (replayDelta type amt) }

/-- Method `BankAccount::loadHistory`; `file` is the content of `dataFile`,
`none` when the file cannot be opened. -/
def loadHistory (a : BankAccount) (file : Option (List Char)) : BankAccount :=
  match file with
  | none => a
  | some cs => loadLoop cs.length (IStream.fresh cs) "" a

/-- Constructor `BankAccount(startBalance, file)`. -/
def construct (startBalance : Double) (dataFile : String) (file : Option (List Char)) :
    BankAccount :=
  loadHistory { balance := startBalance, history := [], dataFile := dataFile } file

/-- Default-constructed account, `BankAccount account;` in `main`. -/
def defaultAccount (file : Option (List Char)) : BankAccount :=
  construct (Double.ofNat 500) "transactions.txt" file

/-! ## Saving the history -/

/-- The low `w` decimal digits of `n`, most significant first. -/
def digitsFixed : Nat → Nat → List Char
  | 0, _ => []
  | w + 1, n => digitsFixed w (n / 10) ++ [Char.ofNat (48 + n % 10)]

/-- Searching upwards from `k`, the largest exponent with `d * 10 ^ k ≤ n`. -/
def expUp : Nat → Nat → Nat → Nat → Nat
  | 0, _, _, k => k
  | fuel + 1, n, d, k => if d * 10 ^ (k + 1) ≤ n then expUp fuel n d (k + 1) else k

/-- Searching upwards from `k`, the least exponent with `d ≤ n * 10 ^ k`. -/
def expDown : Nat → Nat → Nat → Nat → Nat
  | 0, _, _, k => k
  | fuel + 1, n, d, k => if d ≤ n * 10 ^ k then k else expDown fuel n d (k + 1)

/-- Decimal exponent of the positive number `n / d`. -/
def decExponent (n d : Nat) : Int :=
  if d ≤ n then (expUp n n d 0 : Int) else -(expDown d n d 0 : Int)

/-- Number `n / d * 10 ^ k` rounded to an integer. -/
def scaled (n d : Nat) : Int → Nat
  | .ofNat k => roundDiv (n * 10 ^ k) d
  | .negSucc k => roundDiv n (d * 10 ^ (k + 1))

/-- Six significant digits of `n / d` as an integer below `10 ^ 6`, and the
decimal exponent of the rounded number. -/
def sigExp (n d : Nat) : Nat × Int :=
  if scaled n d (5 - decExponent n d) = 1000000 then (100000, decExponent n d + 1)
  else (scaled n d (5 - decExponent n d), decExponent n d)

/-- Drop trailing zeros. -/
def stripZeros (l : List Char) : List Char :=
  (l.reverse.dropWhile (fun c => c = '0')).reverse

/-- Integer digits followed by the fraction digits without their trailing
zeros; no decimal point when no fraction digit remains. -/
def withFraction (ip fp : List Char) : List Char :=
  if stripZeros fp = [] then ip else ip ++ '.' :: stripZeros fp

/-- Exponent digits, at least two. -/
def expDigits (e : Nat) : List Char :=
  if e < 10 then digitsFixed 2 e else Nat.toDigits 10 e

/-- Text of a positive number with six significant digits `s` and decimal
exponent `x`, as `%g` lays it out. -/
def formatGeneral (s : Nat) (x : Int) : List Char :=
  if x < -4 ∨ 6 ≤ x then
    withFraction ((digitsFixed 6 s).take 1) ((digitsFixed 6 s).drop 1)
      ++ 'e' :: (if x < 0 then '-' else '+') :: expDigits x.natAbs
  else if 0 ≤ x then
    withFraction ((digitsFixed 6 s).take (x.toNat + 1)) ((digitsFixed 6 s).drop (x.toNat + 1))
  else withFraction ['0'] (List.replicate (x.natAbs - 1) '0' ++ digitsFixed 6 s)

/-- Text of the magnitude `m * 2 ^ e` of a finite `double`. -/
def formatMagnitude (m : Nat) (e : Int) : List Char :=
  if m = 0 then ['0']
  else formatGeneral (sigExp (m * 2 ^ e.toNat) (2 ^ (-e).toNat)).1
         (sigExp (m * 2 ^ e.toNat) (2 ^ (-e).toNat)).2

/-- Insertion `os << x` of a `double` into a stream in its default format
state: general notation with precision 6, as `printf("%.6g")` writes the exact
binary value. -/
def formatDouble : Double → List Char
  | .finite neg m e => if neg then '-' :: formatMagnitude m e else formatMagnitude m e
  | .inf neg => if neg then ['-', 'i', 'n', 'f'] else ['i', 'n', 'f']
  | .nan => ['n', 'a', 'n']

/-- One line of the data file:
`fout << tr.type << ' ' << tr.amount << ' ' << tr.timestamp << '\n'`. -/
def saveLine (tr : Transaction) : List Char :=
  tr.type :: ' ' :: (formatDouble tr.amount ++ ' ' :: (tr.timestamp.data ++ ['\n']))

/-- Text written by the loop of `saveHistory`. -/
def saveLines : List Transaction → List Char
  | [] => []
  | tr :: rest => saveLine tr ++ saveLines rest

/-- Content of the file right after `std::ofstream fout(dataFile,
std::ios::trunc)`: the file is emptied, whatever it held. -/
def openTrunc (_previous : Option (List Char)) : List Char := []

/-- Method `BankAccount::saveHistory`: the new content of `dataFile`,
`previous` being what the file held, if it existed. -/
def saveHistory (a : BankAccount) (previous : Option (List Char)) : List Char :=
  openTrunc previous ++ saveLines a.history

/-! ## Listings -/

/-- Method `BankAccount::showBalance`. -/
def showBalance (a : BankAccount) : List Out :=
  [.str "Balance: $", .num a.balance, .str "\n"]

/-- Report of an empty history. -/
def noTransactions : List Out := [.str "(no transactions)\n"]

/-- Header of a listing: the three column titles and the rule. -/
def listHeader : List Out :=
  [.str "Type", .str "Amount", .str "Timestamp\n",
   .str "---------------------------------------------\n"]

/-- Row printed for one transaction. -/
def listRow (tr : Transaction) : List Out :=
  [.str (if tr.type = 'D' then "Deposit" else "Withdrawal"), .chr '$', .num tr.amount,
   .str tr.timestamp, .chr '\n']

/-- The `for` loop of `listByType`. -/
def listRows (filter : Char) : List Transaction → List Out
  | [] => []
  | tr :: rest =>
    if filter ≠ 'A' ∧ tr.type ≠ filter then listRows filter rest
    else listRow tr ++ listRows filter rest

/-- Method `BankAccount::listByType`. -/
def listByType (a : BankAccount) (filter : Char) : List Out :=
  if a.history.isEmpty then noTransactions
  else listHeader ++ listRows filter a.history

/-- Method `BankAccount::listDeposits`. -/
def listDeposits (a : BankAccount) : List Out := listByType a 'D'

/-- Method `BankAccount::listWithdrawals`. -/
def listWithdrawals (a : BankAccount) : List Out := listByType a 'W'

/-- Method `BankAccount::listAllTransactions`. -/
def listAllTransactions (a : BankAccount) : List Out := listByType a 'A'

/-! ## The menu loop of `main` -/

/-- Extraction `is >> n` of an `int` into a variable holding `old`: the flag
of success, the new value of the variable and the stream.  A failed sentry
leaves the variable alone, characters that are no number store `0`, and a
number outside the range of `int` stores the nearest bound and fails. -/
def extractInt (s : IStream) (old : Int) : Bool × Int × IStream :=
  match sentry s with
  | .error s1 => (false, old, s1)
  | .ok (c, cs) =>
    match scanInt (c :: cs) with
    | (none, rest) => (false, 0, { buf := rest, eofbit := rest.isEmpty, failbit := true })
    | (some v, rest) =>
      if 2147483647 < v then
        (false, 2147483647, { buf := rest, eofbit := rest.isEmpty, failbit := true })
      else if v < -2147483648 then
        (false, -2147483648, { buf := rest, eofbit := rest.isEmpty, failbit := true })
      else (true, v, { buf := rest, eofbit := rest.isEmpty, failbit := false })

/-- Call `is.ignore(numeric_limits<streamsize>::max(), '\n')`: discards the
rest of the line, the newline included. -/
def ignoreLine (s : IStream) : IStream :=
  if s.good then
    match splitLine s.buf with
    | (_, r, e) => { buf := r, eofbit := e, failbit := false }
  else { s with failbit := true }

/-- State of `main` inside its loop: the account, `std::cin`, the variable
`choice` and everything written to `std::cout` so far. -/
structure MainState where
  account : BankAccount
  cin : IStream
  choice : Int
  out : List Out
deriving DecidableEq

/-- Text printed at the top of every round of the loop. -/
def menuText (a : BankAccount) : List Out :=
  [.str "\n========== MAIN MENU ==========\n"] ++ showBalance a ++
  [.str "\n1) Balance\n", .str "2) Make a Deposit\n", .str "3) Make a Withdrawal\n",
   .str "4) Deposit History\n", .str "5) Withdrawal History\n",
   .str "6) All Deposits and Withdrawals\n", .str "7) Exit\n", .str "Select an option: "]

/-- The `switch (choice)` of `main`, `cin` being the stream after the flush
of the rest of the line. -/
def dispatch (a : BankAccount) (cin : IStream) (choice : Int) (now : String) :
    BankAccount × IStream × List Out :=
  if choice = 1 then (a, cin, showBalance a)
  else if choice = 2 then makeDeposit a cin now
  else if choice = 3 then makeWithdrawal a cin now
  else if choice = 4 then (a, cin, listDeposits a)
  else if choice = 5 then (a, cin, listWithdrawals a)
  else if choice = 6 then (a, cin, listAllTransactions a)
  else if choice = 7 then (a, cin, [.str "\nExiting …\n"])
  else (a, cin, [.str "Choose 1-7 only.\n"])

/-- Body of the `while (choice != 7)` loop; `now` is what the clock shows
during this round. -/
def loopBody (now : String) (s : MainState) : MainState :=
  match extractInt s.cin s.choice with
  | (false, ch, cin1) =>
    { account := s.account, cin := ignoreLine cin1.clear, choice := ch,
      out := s.out ++ menuText s.account ++ [.str "Please enter a number 1-7.\n"] }
  | (true, ch, cin1) =>
    match dispatch s.account (ignoreLine cin1) ch now with
    | (a, cin2, o) =>
      { account := a, cin := cin2, choice := ch, out := s.out ++ menuText s.account ++ o }

/-- Rounds of the loop, one per clock reading in the list, stopping early
once `choice` is 7. -/
def loopRounds : List String → MainState → MainState
  | [], s => s
  | now :: clock, s => if s.choice = 7 then s else loopRounds clock (loopBody now s)

/-- State of `main` at the first test of the loop condition: the account is
default-constructed from the data file, a line of `std::cin` has been read
into `name`, and `choice` is 0. -/
def mainStart (file : Option (List Char)) (cin : IStream) : MainState :=
  { account := defaultAccount file,
    cin := (getline cin "").2,
    choice := 0,
    out := [.str "What is your name? ", .str "\nHello, ", .str (getline cin "").1,
            .str " – welcome to your account!\n\n"] }

/-! ## Notions of the specification -/

/-- Balance obtained by replaying records in order from the balance `b`: the
amount of a record of kind `'D'` is added, the amount of a record of any other
kind is subtracted, each step in `double` arithmetic. -/
def replay : Double → List Transaction → Double
  | b, [] => b
  | b, t :: rest => replay (if t.type = 'D' then b.add t.amount else b.sub t.amount) rest

/-- Sum, in `double` arithmetic and in the order of the history, of the
amounts of the records of the given kind. -/
def kindTotal (kind : Char) : List Transaction → Double → Double
  | [], acc => acc
  | t :: rest, acc => kindTotal kind rest (if t.type = kind then acc.add t.amount else acc)

/-- Exact sum of the amounts of the records of the given kind. -/
def kindTotalExact (kind : Char) : List Transaction → ℚ
  | [] => 0
  | t :: rest => (if t.type = kind then t.amount.toRat else 0) + kindTotalExact kind rest

/-- Account with the balance 500.00 and an empty history. -/
def freshAccount : BankAccount :=
  { balance := Double.ofNat 500, history := [], dataFile := "transactions.txt" }

/-- A session at the terminal, with no data file at the start: the user gives
a name, chooses 2, deposits 12345.67 and chooses 7. -/
def sessionRun : MainState :=
  loopRounds ["2024-05-01 09:30:00", "2024-05-01 09:31:00"]
    (mainStart none (IStream.fresh "Ann\n2\n12345.67\n7\n".data))

/-- Input of the scenario: the three amounts entered, one per line. -/
def scenarioInput : IStream := IStream.fresh "100\n700\n600\n".data

/-- Scenario, first step: a deposit into an account of 500.00 with an empty
history, the clock showing `t1`. -/
def scenarioDeposit (t1 : String) : BankAccount × IStream × List Out :=
  makeDeposit freshAccount scenarioInput t1

/-- Scenario, second step: a withdrawal request after the deposit. -/
def scenarioRefused (t1 t2 : String) : BankAccount × IStream × List Out :=
  makeWithdrawal (scenarioDeposit t1).1 (scenarioDeposit t1).2.1 t2

/-- Scenario, third step: a second withdrawal request. -/
def scenarioWithdrawn (t1 t2 t3 : String) : BankAccount × IStream × List Out :=
  makeWithdrawal (scenarioRefused t1 t2).1 (scenarioRefused t1 t2).2.1 t3

/-- State of `main` at the start of a round, for an account, an input and a
value of `choice`, nothing being printed yet. -/
def roundStart (a : BankAccount) (input : String) (choice : Int) : MainState :=
  { account := a, cin := IStream.fresh input.data, choice := choice, out := [] }

/-- Lines of a text: the runs of characters ended by a newline, and a last
run without newline when it is not empty. -/
def textLines : List Char → List (List Char)
  | [] => []
  | c :: cs =>
    if c = '\n' then [] :: textLines cs
    else match textLines cs with
      | [] => [[c]]
      | l :: ls => (c :: l) :: ls

/-- Text of the line of a record: kind character, space, amount as the
stream writes it, space, timestamp. -/
def recordText (t : Transaction) : List Char :=
  t.type :: ' ' :: (formatDouble t.amount ++ ' ' :: t.timestamp.data)

/-- A record that fits on one line: neither its kind character nor its
timestamp holds a newline. -/
def OneLine (t : Transaction) : Prop := t.type ≠ '\n' ∧ '\n' ∉ t.timestamp.data

/-- Conversions, sums and differences at values whose binary64 results are
known: 0.1, 0.1 + 0.2, ties to even at `2 ^ 53 + 1` and `2 ^ 53 + 3`, the
largest finite value, the overflow to infinity, subnormal values, the
underflow to zero, and the sums that the ledger computes on 65.32 and 64.07. -/
theorem double_reference_values :
    Double.ofDecimal false 1 (-1) = .finite false 7205759403792794 (-56) ∧
    Double.ofNat 500 = .finite false 8796093022208000 (-44) ∧
    Double.ofNat 600 = .finite false 5277655813324800 (-43) ∧
    (Double.ofDecimal false 1 (-1)).add (Double.ofDecimal false 2 (-1))
      = .finite false 5404319552844596 (-54) ∧
    Double.ofNat 9007199254740993 = .finite false 4503599627370496 1 ∧
    Double.ofNat 9007199254740995 = .finite false 4503599627370498 1 ∧
    Double.ofDecimal false 17976931348623157 292 = .finite false 9007199254740991 971 ∧
    Double.ofDecimal false 1 400 = .inf false ∧
    Double.ofDecimal true 1 400 = .inf true ∧
    (Double.ofDecimal false 1 308).add (Double.ofDecimal false 1 308) = .inf false ∧
    Double.ofDecimal false 5 (-324) = .finite false 1 (-1074) ∧
    Double.ofDecimal false 22250738585072014 (-324)
      = .finite false 4503599627370496 (-1074) ∧
    Double.ofDecimal false 1 (-320) = .finite false 2024 (-1074) ∧
    Double.ofDecimal false 1 (-400) = .finite false 0 (-1074) ∧
    Double.ofDecimal true 0 0 = .finite true 0 (-1074) ∧
    Double.ofDecimal true 35 (-1) = .finite true 7881299347898368 (-51) ∧
    Double.ofDecimal false 1000015 (-2) = .finite false 5497640602252083 (-39) ∧
    ((Double.ofNat 500).add (Double.ofDecimal false 6532 (-2))).sub
        (Double.ofDecimal false 56532 (-2))
      = .finite true 4503599627370496 (-95) ∧
    (Double.ofNat 500).add (Double.ofDecimal false 6407 (-2))
      = .finite false 4961612191036866 (-43) ∧
    Double.ofDecimal false 56407 (-2) = .finite false 4961612191036867 (-43) ∧
    (Double.ofNat 500).sub (Double.ofNat 500) = .finite false 0 (-1074) := by
  decide!

/-- Texts that the default stream format gives: six significant digits,
trailing zeros dropped, exponent notation below `1e-4` and from `1e6` on, the
sign of a negative zero kept. -/
theorem formatDouble_reference_values :
    formatDouble (Double.ofDecimal false 1000015 (-2)) = "10000.1".data ∧
    formatDouble (Double.ofDecimal false 1234567 (-2)) = "12345.7".data ∧
    formatDouble (Double.ofNat 100) = "100".data ∧
    formatDouble (Double.ofDecimal false 1 (-1)) = "0.1".data ∧
    formatDouble (Double.ofDecimal false 1 (-4)) = "0.0001".data ∧
    formatDouble (Double.ofDecimal false 1234 (-8)) = "1.234e-05".data ∧
    formatDouble (Double.ofNat 123456789) = "1.23457e+08".data ∧
    formatDouble (Double.ofDecimal false 9999995 (-1)) = "1e+06".data ∧
    formatDouble (Double.ofDecimal false 1 23) = "1e+23".data ∧
    formatDouble (Double.ofDecimal false 5 (-324)) = "4.94066e-324".data ∧
    formatDouble (Double.ofDecimal false 17976931348623157 292) = "1.79769e+308".data ∧
    formatDouble (Double.ofDecimal true 35 (-1)) = "-3.5".data ∧
    formatDouble (Double.ofDecimal true 0 0) = "-0".data ∧
    formatDouble Double.zero = "0".data ∧
    formatDouble (.inf false) = "inf".data ∧
    formatDouble (.inf true) = "-inf".data := by
  decide!

/-- A finite value is the nearest `double` to its own exact value: the exact
value of 0.1 as a `double` is `3602879701896397 / 36028797018963968`. -/
theorem toRat_reference_values :
    (Double.ofDecimal false 1 (-1)).toRat = 3602879701896397 / 36028797018963968 ∧
    (Double.ofNat 500).toRat = 500 ∧
    (Double.ofDecimal true 35 (-1)).toRat = -7 / 2 ∧
    decimalValue false 1234567 (-2) = 1234567 / 100 := by
  decide!

/-! ## The fuel of `loadLoop` is adequate -/

theorem skipWs_length (l : List Char) : (skipWs l).length ≤ l.length := by
  induction l with
  | nil => simp [skipWs]
  | cons c cs ih =>
    unfold skipWs
    split_ifs
    · exact Nat.le_succ_of_le ih
    · exact Nat.le_refl _

theorem scanDigits_length (l : List Char) :
    ∀ acc cnt, (scanDigits l acc cnt).2.2.length ≤ l.length := by
  induction l with
  | nil => intro acc cnt; simp [scanDigits]
  | cons c cs ih =>
    intro acc cnt
    unfold scanDigits
    split_ifs
    · exact Nat.le_succ_of_le (ih _ _)
    · exact Nat.le_refl _

theorem scanSign_length (l : List Char) : (scanSign l).2.length ≤ l.length := by
  cases l with
  | nil => simp [scanSign]
  | cons c cs =>
    simp only [scanSign]
    split_ifs <;> simp

theorem scanFraction_length (ip : Nat) (l : List Char) :
    (scanFraction ip l).2.2.length ≤ l.length := by
  cases l with
  | nil => simp [scanFraction]
  | cons c cs =>
    simp only [scanFraction]
    split_ifs
    · exact Nat.le_succ_of_le (scanDigits_length cs _ _)
    · exact Nat.le_refl _

theorem scanExponent_length (neg : Bool) (m fc : Nat) (l : List Char) :
    (scanExponent neg m fc l).2.length ≤ l.length := by
  cases l with
  | nil => simp [scanExponent]
  | cons c cs =>
    have h1 := scanSign_length cs
    have h2 := scanDigits_length (scanSign cs).2 0 0
    simp only [scanExponent]
    split_ifs
    · exact Nat.le_succ_of_le (Nat.le_trans h2 h1)
    · exact Nat.le_succ_of_le (Nat.le_trans h2 h1)
    · exact Nat.le_refl _

theorem scanFloat_length (l : List Char) : (scanFloat l).2.length ≤ l.length := by
  have h1 := scanSign_length l
  have h2 := scanDigits_length (scanSign l).2 0 0
  have h3 := scanFraction_length (scanDigits (scanSign l).2 0 0).1
    (scanDigits (scanSign l).2 0 0).2.2
  have h4 := fun neg m fc => scanExponent_length neg m fc
    (scanFraction (scanDigits (scanSign l).2 0 0).1 (scanDigits (scanSign l).2 0 0).2.2).2.2
  unfold scanFloat
  dsimp only
  split_ifs
  · exact Nat.le_trans h3 (Nat.le_trans h2 h1)
  · exact Nat.le_trans (h4 _ _ _) (Nat.le_trans h3 (Nat.le_trans h2 h1))

theorem splitLine_length (l : List Char) : (splitLine l).2.1.length ≤ l.length := by
  induction l with
  | nil => simp [splitLine]
  | cons c cs ih =>
    unfold splitLine
    split_ifs
    · simp
    · exact Nat.le_succ_of_le ih

theorem sentry_ok_length (s : IStream) (c : Char) (cs : List Char)
    (h : sentry s = .ok (c, cs)) : cs.length < s.buf.length := by
  unfold sentry at h
  have hl := skipWs_length s.buf
  by_cases hg : s.good = true
  · rw [if_pos hg] at h
    cases hk : skipWs s.buf with
    | nil => rw [hk] at h; simp at h
    | cons c' cs' =>
      rw [hk] at h hl
      simp only [Except.ok.injEq, Prod.mk.injEq] at h
      rw [← h.2]
      exact hl
  · rw [if_neg hg] at h
    exact absurd h (by simp)

theorem sentry_error_length (s s1 : IStream) (h : sentry s = .error s1) :
    s1.buf.length ≤ s.buf.length := by
  unfold sentry at h
  by_cases hg : s.good = true
  · rw [if_pos hg] at h
    cases hk : skipWs s.buf with
    | nil =>
      rw [hk] at h
      simp only [Except.error.injEq] at h
      rw [← h]
      exact Nat.zero_le _
    | cons c' cs' => rw [hk] at h; simp at h
  · rw [if_neg hg] at h
    simp only [Except.error.injEq] at h
    rw [← h]

theorem extractChar_some_length (s s1 : IStream) (c : Char)
    (h : extractChar s = (some c, s1)) : s1.buf.length < s.buf.length := by
  unfold extractChar at h
  cases hs : sentry s with
  | error e => rw [hs] at h; simp at h
  | ok p =>
    obtain ⟨c', cs⟩ := p
    rw [hs] at h
    simp only [Prod.mk.injEq, Option.some.injEq] at h
    rw [← h.2]
    exact sentry_ok_length s c' cs hs

theorem extractDouble_length (s : IStream) :
    (extractDouble s).2.buf.length ≤ s.buf.length := by
  unfold extractDouble
  cases hs : sentry s with
  | error e => exact sentry_error_length s e hs
  | ok p =>
    obtain ⟨c, cs⟩ := p
    have h1 := sentry_ok_length s c cs hs
    have h2 := scanFloat_length (c :: cs)
    have h3 : (c :: cs).length ≤ s.buf.length := h1
    dsimp only
    rcases hf : scanFloat (c :: cs) with ⟨_ | ⟨neg, m, e⟩, rest⟩
    · rw [hf] at h2
      exact Nat.le_trans h2 h3
    · rw [hf] at h2
      dsimp only
      split_ifs
      · exact Nat.le_trans h2 h3
      · exact Nat.le_trans h2 h3

theorem extractRecord_some_length (fin fin2 : IStream) (r : Char × Double)
    (h : extractRecord fin = (some r, fin2)) : fin2.buf.length < fin.buf.length := by
  unfold extractRecord at h
  rcases hc : extractChar fin with ⟨_ | ty, fin1⟩
  · rw [hc] at h; simp at h
  · rw [hc] at h
    dsimp only at h
    have h1 := extractChar_some_length fin fin1 ty hc
    have h2 := extractDouble_length fin1
    rcases hd : extractDouble fin1 with ⟨_ | amt, fin2'⟩
    · rw [hd] at h; simp at h
    · rw [hd] at h h2
      simp only [Prod.mk.injEq] at h
      rw [← h.2]
      exact Nat.lt_of_le_of_lt h2 h1

theorem getline_length (s : IStream) (str : String) :
    (getline s str).2.buf.length ≤ s.buf.length := by
  unfold getline
  split_ifs
  · exact splitLine_length s.buf
  · exact Nat.le_refl _

theorem extractRecord_of_nil (fin : IStream) (h : fin.buf = []) :
    (extractRecord fin).1 = none := by
  rcases hr : extractRecord fin with ⟨_ | r, fin2⟩
  · rfl
  · have := extractRecord_some_length fin fin2 r hr
    rw [h] at this
    exact absurd this (Nat.not_lt_zero _)

theorem loadLoop_of_fail (n : Nat) (fin : IStream) (ts : String) (a : BankAccount)
    (h : (extractRecord fin).1 = none) : loadLoop n fin ts a = a := by
  cases n with
  | zero => rfl
  | succ n =>
    unfold loadLoop
    rcases hr : extractRecord fin with ⟨_ | r, fin2⟩
    · rfl
    · rw [hr] at h; simp at h

/-- Any two amounts of fuel that are at least the number of unread characters
give the same result: `loadLoop` never stops for lack of fuel. -/
theorem loadLoop_fuel :
    ∀ (n m : Nat) (fin : IStream) (ts : String) (a : BankAccount),
      fin.buf.length ≤ n → fin.buf.length ≤ m →
      loadLoop n fin ts a = loadLoop m fin ts a := by
  intro n
  induction n with
  | zero =>
    intro m fin ts a hn _
    have hnil : fin.buf = [] := List.length_eq_zero.mp (Nat.le_zero.mp hn)
    rw [loadLoop_of_fail 0 fin ts a (extractRecord_of_nil fin hnil),
      loadLoop_of_fail m fin ts a (extractRecord_of_nil fin hnil)]
  | succ n ih =>
    intro m fin ts a hn hm
    cases m with
    | zero =>
      have hnil : fin.buf = [] := List.length_eq_zero.mp (Nat.le_zero.mp hm)
      rw [loadLoop_of_fail 0 fin ts a (extractRecord_of_nil fin hnil),
        loadLoop_of_fail (n + 1) fin ts a (extractRecord_of_nil fin hnil)]
    | succ m =>
      unfold loadLoop
      rcases hr : extractRecord fin with ⟨_ | ⟨ty, amt⟩, fin2⟩
      · rfl
      · have h1 := extractRecord_some_length fin fin2 (ty, amt) hr
        have h2 := getline_length fin2 ts
        exact ih m _ _ _
          (Nat.le_of_lt_succ (Nat.lt_of_le_of_lt h2 (Nat.lt_of_lt_of_le h1 hn)))
          (Nat.le_of_lt_succ (Nat.lt_of_le_of_lt h2 (Nat.lt_of_lt_of_le h1 hm)))

/-- Result of `loadHistory` on an existing file does not depend on the fuel,
once it is at least the length of the file. -/
theorem loadHistory_fuel (a : BankAccount) (cs : List Char) (n : Nat)
    (h : cs.length ≤ n) :
    loadLoop n (IStream.fresh cs) "" a = loadHistory a (some cs) :=
  loadLoop_fuel n cs.length (IStream.fresh cs) "" a h (Nat.le_refl _)

/-! ## Signs and comparisons of `double` values -/

theorem signed_zero (neg : Bool) : signed neg 0 = 0 := by
  cases neg <;> simp [signed]

theorem aligned_zero (neg : Bool) (e e0 : Int) : aligned neg 0 e e0 = 0 := by
  simp [aligned, signed_zero]

theorem aligned_false_nonneg (m : Nat) (e e0 : Int) : 0 ≤ aligned false m e e0 := by
  simp only [aligned, signed, Bool.false_eq_true, if_false]
  exact Int.ofNat_nonneg _

theorem aligned_not (neg : Bool) (m : Nat) (e e0 : Int) :
    aligned (!neg) m e e0 = -aligned neg m e e0 := by
  cases neg <;> simp [aligned, signed]

theorem aligned_pos_sign (neg : Bool) (m : Nat) (e e0 : Int) (h : 0 < aligned neg m e e0) :
    neg = false := by
  cases neg with
  | false => rfl
  | true =>
    simp only [aligned, signed, if_true] at h
    have : (0 : Int) ≤ ((m * 2 ^ (e - e0).toNat : Nat) : Int) := Int.ofNat_nonneg _
    omega

theorem round_sign (neg : Bool) (n d : Nat) :
    Double.round neg n d = .inf neg ∨ ∃ m e, Double.round neg n d = .finite neg m e := by
  unfold Double.round
  split_ifs
  · exact Or.inl rfl
  · exact Or.inr ⟨_, _, rfl⟩
  · exact Or.inl rfl
  · exact Or.inr ⟨_, _, rfl⟩

theorem zero_le_finite_false (m : Nat) (e : Int) :
    Double.zero.le (.finite false m e) = true := by
  simp only [Double.zero, Double.le, decide_eq_true_eq, aligned_zero]
  exact aligned_false_nonneg _ _ _

theorem zero_le_finite_zero (neg : Bool) (e : Int) :
    Double.zero.le (.finite neg 0 e) = true := by
  simp [Double.zero, Double.le, aligned_zero]

theorem zero_le_round (n d : Nat) : Double.zero.le (Double.round false n d) = true := by
  rcases round_sign false n d with h | ⟨m, e, h⟩
  · rw [h]; rfl
  · rw [h]; exact zero_le_finite_false m e

/-- A finite value that is not `<= 0` is `> 0`. -/
theorem zero_lt_of_not_le (x : Double) (hfin : x.isFinite = true)
    (h : x.le Double.zero = false) : Double.zero.lt x = true := by
  cases x with
  | nan => simp [Double.isFinite] at hfin
  | inf s => simp [Double.isFinite] at hfin
  | finite s m e =>
    simp only [Double.zero, Double.le, decide_eq_false_iff_not, aligned_zero, not_le] at h
    simp only [Double.zero, Double.lt, decide_eq_true_eq, aligned_zero]
    rw [min_comm]
    exact h

/-- Subtracting from a balance `>= 0` a finite amount that is `> 0` and not
above the balance leaves a balance `>= 0`. -/
theorem sub_nonneg_of_le (b x : Double) (hfin : x.isFinite = true)
    (hb : Double.zero.le b = true) (hx : x.le Double.zero = false)
    (hle : b.lt x = false) : Double.zero.le (b.sub x) = true := by
  cases x with
  | nan => simp [Double.isFinite] at hfin
  | inf s => simp [Double.isFinite] at hfin
  | finite sa ma ea =>
    cases b with
    | nan => simp [Double.zero, Double.le] at hb
    | inf s =>
      have hs : s = false := by simpa [Double.zero, Double.le] using hb
      subst hs
      rfl
    | finite sb mb eb =>
      simp only [Double.lt, decide_eq_false_iff_not, not_lt] at hle
      simp only [Double.sub, Double.neg, Double.add, Double.addFinite, aligned_not]
      split_ifs with h0
      · exact zero_le_finite_zero _ _
      · have hneg : decide (aligned sb mb eb (min eb ea) + -aligned sa ma ea (min eb ea) < 0)
            = false := by
          simp only [decide_eq_false_iff_not, not_lt]
          omega
        rw [hneg]
        exact zero_le_round _ _

theorem extractDouble_isFinite (s s1 : IStream) (v : Double)
    (h : extractDouble s = (some v, s1)) : v.isFinite = true := by
  unfold extractDouble at h
  cases hs : sentry s with
  | error e => rw [hs] at h; simp at h
  | ok p =>
    obtain ⟨c, cs⟩ := p
    rw [hs] at h
    dsimp only at h
    rcases hf : scanFloat (c :: cs) with ⟨_ | ⟨neg, m, e⟩, rest⟩
    · rw [hf] at h; simp at h
    · rw [hf] at h
      dsimp only at h
      by_cases hfin : (Double.ofDecimal neg m e).isFinite = true
      · rw [if_pos hfin] at h
        simp only [Prod.mk.injEq, Option.some.injEq] at h
        rw [← h.1]
        exact hfin
      · rw [if_neg hfin] at h
        simp at h

/-! ## The balance is the replay of the history -/

theorem replay_append (b : Double) (h : List Transaction) (t : Transaction) :
    replay b (h ++ [t])
      = if t.type = 'D' then (replay b h).add t.amount else (replay b h).sub t.amount := by
  induction h generalizing b with
  | nil => simp [replay]
  | cons u rest ih =>
    rw [List.cons_append]
    simp only [replay]
    exact ih _

theorem replayed_push (start : Double) (a : BankAccount) (ty : Char) (amt : Double)
    (ts : String) (h : a.balance = replay start a.history) :
    a.balance.add (replayDelta ty amt)
      = replay start (a.history ++ [{ amount := amt, type := ty, timestamp := ts }]) := by
  rw [replay_append, ← h]
  by_cases hty : ty = 'D'
  · simp [replayDelta, hty]
  · simp [replayDelta, hty, Double.sub]

theorem loadLoop_replayed (start : Double) :
    ∀ (fuel : Nat) (fin : IStream) (ts : String) (a : BankAccount),
      a.balance = replay start a.history →
      (loadLoop fuel fin ts a).balance = replay start (loadLoop fuel fin ts a).history := by
  intro fuel
  induction fuel with
  | zero => intro fin ts a h; exact h
  | succ n ih =>
    intro fin ts a h
    unfold loadLoop
    rcases hc : extractRecord fin with ⟨_ | ⟨ty, amt⟩, fin2⟩
    · exact h
    · exact ih _ _ _ (replayed_push start a ty amt _ h)

theorem construct_replayed (start : Double) (dataFile : String) (file : Option (List Char)) :
    (construct start dataFile file).balance
      = replay start (construct start dataFile file).history := by
  cases file with
  | none => rfl
  | some cs => exact loadLoop_replayed start _ _ _ _ rfl

theorem makeDeposit_replayed (start : Double) (a : BankAccount) (cin : IStream)
    (now : String) (h : a.balance = replay start a.history) :
    (makeDeposit a cin now).1.balance = replay start (makeDeposit a cin now).1.history := by
  unfold makeDeposit
  rcases hx : extractDouble cin with ⟨_ | amt, cin1⟩
  · exact h
  · by_cases hle : amt.le Double.zero = true
    · simpa [hle] using h
    · have := replayed_push start a 'D' amt now h
      simpa [hle, replayDelta] using this

theorem makeWithdrawal_replayed (start : Double) (a : BankAccount) (cin : IStream)
    (now : String) (h : a.balance = replay start a.history) :
    (makeWithdrawal a cin now).1.balance
      = replay start (makeWithdrawal a cin now).1.history := by
  unfold makeWithdrawal
  rcases hx : extractDouble cin with ⟨_ | amt, cin1⟩
  · exact h
  · by_cases hle : (amt.le Double.zero || a.balance.lt amt) = true
    · simpa [hle] using h
    · have := replayed_push start a 'W' amt now h
      have hW : ('W' : Char) ≠ 'D' := by decide
      simp only [replayDelta, hW, if_false] at this
      simp only [hle, if_false]
      exact this

theorem dispatch_replayed (start : Double) (a : BankAccount) (cin : IStream) (choice : Int)
    (now : String) (h : a.balance = replay start a.history) :
    (dispatch a cin choice now).1.balance
      = replay start (dispatch a cin choice now).1.history := by
  unfold dispatch
  split_ifs
  · exact h
  · exact makeDeposit_replayed start a cin now h
  · exact makeWithdrawal_replayed start a cin now h
  all_goals exact h

theorem loopBody_replayed (start : Double) (now : String) (s : MainState)
    (h : s.account.balance = replay start s.account.history) :
    (loopBody now s).account.balance = replay start (loopBody now s).account.history := by
  unfold loopBody
  rcases hx : extractInt s.cin s.choice with ⟨_ | _, ch, cin1⟩
  · exact h
  · exact dispatch_replayed start s.account _ ch now h

theorem loopRounds_replayed (start : Double) :
    ∀ (clock : List String) (s : MainState),
      s.account.balance = replay start s.account.history →
      (loopRounds clock s).account.balance
        = replay start (loopRounds clock s).account.history := by
  intro clock
  induction clock with
  | nil => intro s h; exact h
  | cons now rest ih =>
    intro s h
    unfold loopRounds
    split_ifs
    · exact h
    · exact ih _ (loopBody_replayed start now s h)

/-! ## Comparisons used by the guards -/

theorem not_le_zero_of_zero_lt (x : Double) (h : Double.zero.lt x = true) :
    x.le Double.zero = false := by
  cases x with
  | nan => simp [Double.zero, Double.lt] at h
  | inf s =>
    have hs : s = false := by simpa [Double.zero, Double.lt] using h
    subst hs
    rfl
  | finite s m e =>
    simp only [Double.zero, Double.lt, decide_eq_true_eq, aligned_zero] at h
    simp only [Double.zero, Double.le, decide_eq_false_iff_not, aligned_zero, not_le]
    rw [min_comm]
    exact h

theorem not_lt_of_le (x b : Double) (h : x.le b = true) : b.lt x = false := by
  cases x with
  | nan => simp [Double.le] at h
  | inf s =>
    cases b with
    | nan => simp [Double.le] at h
    | inf t =>
      simp only [Double.le, Bool.or_eq_true, Bool.not_eq_true'] at h
      simp only [Double.lt]
      rcases h with h | h <;> simp [h]
    | finite sb mb eb =>
      simp only [Double.le] at h
      simp [Double.lt, h]
  | finite s m e =>
    cases b with
    | nan => simp [Double.le] at h
    | inf t =>
      simp only [Double.le, Bool.not_eq_true'] at h
      simp [Double.lt, h]
    | finite sb mb eb =>
      simp only [Double.le, decide_eq_true_eq] at h
      simp only [Double.lt, decide_eq_false_iff_not, not_lt]
      rw [min_comm]
      exact h

/-! ## Helper lemmas on the menu loop -/

theorem extractInt_fail_choice (s : IStream) (old : Int) (hold : old ≠ 7)
    (hfail : (extractInt s old).1 = false) : (extractInt s old).2.1 ≠ 7 := by
  unfold extractInt at hfail ⊢
  cases hs : sentry s with
  | error e => simpa using hold
  | ok p =>
    obtain ⟨c, cs⟩ := p
    rw [hs] at hfail
    dsimp only at hfail ⊢
    rcases hf : scanInt (c :: cs) with ⟨_ | v, rest⟩
    · simp
    · rw [hf] at hfail
      dsimp only at hfail ⊢
      split_ifs at hfail ⊢
      · simp
      · simp

theorem loopBody_out (now : String) (s : MainState) :
    ∃ o, (loopBody now s).out = s.out ++ menuText s.account ++ o := by
  unfold loopBody
  rcases hx : extractInt s.cin s.choice with ⟨_ | _, ch, cin1⟩
  · exact ⟨_, rfl⟩
  · exact ⟨_, rfl⟩

theorem menuText_eq (a : BankAccount) :
    menuText a
      = [.str "\n========== MAIN MENU ==========\n", .str "Balance: $", .num a.balance,
         .str "\n", .str "\n1) Balance\n", .str "2) Make a Deposit\n",
         .str "3) Make a Withdrawal\n", .str "4) Deposit History\n",
         .str "5) Withdrawal History\n", .str "6) All Deposits and Withdrawals\n",
         .str "7) Exit\n", .str "Select an option: "] := rfl

theorem makeDeposit_history (a : BankAccount) (cin : IStream) (now : String) :
    ∃ l, (makeDeposit a cin now).1.history = a.history ++ l ∧ l.length ≤ 1 := by
  unfold makeDeposit
  rcases hx : extractDouble cin with ⟨_ | amt, cin1⟩
  · exact ⟨[], by simp⟩
  · by_cases h : amt.le Double.zero = true
    · exact ⟨[], by simp [h]⟩
    · exact ⟨[{ amount := amt, type := 'D', timestamp := now }], by simp [h]⟩

theorem makeWithdrawal_history (a : BankAccount) (cin : IStream) (now : String) :
    ∃ l, (makeWithdrawal a cin now).1.history = a.history ++ l ∧ l.length ≤ 1 := by
  unfold makeWithdrawal
  rcases hx : extractDouble cin with ⟨_ | amt, cin1⟩
  · exact ⟨[], by simp⟩
  · by_cases h : (amt.le Double.zero || a.balance.lt amt) = true
    · exact ⟨[], by simp [h]⟩
    · exact ⟨[{ amount := amt, type := 'W', timestamp := now }], by simp [h]⟩

theorem dispatch_history (a : BankAccount) (cin : IStream) (choice : Int) (now : String) :
    ∃ l, (dispatch a cin choice now).1.history = a.history ++ l ∧ l.length ≤ 1 := by
  unfold dispatch
  split_ifs
  · exact ⟨[], by simp⟩
  · exact makeDeposit_history a cin now
  · exact makeWithdrawal_history a cin now
  all_goals exact ⟨[], by simp⟩

theorem dispatch_readonly (a : BankAccount) (cin : IStream) (choice : Int) (now : String)
    (h : choice ≠ 2 ∧ choice ≠ 3) : (dispatch a cin choice now).1 = a := by
  unfold dispatch
  simp [h.1, h.2]
  split_ifs <;> rfl

/-! ## Texts without newline -/

theorem digit_ne_newline (k : Nat) (hk : k < 10) : Char.ofNat (48 + k) ≠ '\n' := by
  interval_cases k <;> decide

theorem digitChar_ne_newline (k : Nat) (hk : k < 10) : Nat.digitChar k ≠ '\n' := by
  interval_cases k <;> decide

theorem digitsFixed_no_newline (w : Nat) : ∀ n, '\n' ∉ digitsFixed w n := by
  induction w with
  | zero => intro n; simp [digitsFixed]
  | succ w ih =>
    intro n
    simp only [digitsFixed, List.mem_append, List.mem_singleton, not_or]
    exact ⟨ih _, fun h => digit_ne_newline (n % 10) (Nat.mod_lt _ (by decide)) h.symm⟩

theorem toDigitsCore_no_newline (fuel : Nat) :
    ∀ (n : Nat) (ds : List Char), '\n' ∉ ds → '\n' ∉ Nat.toDigitsCore 10 fuel n ds := by
  induction fuel with
  | zero => intro n ds h; simpa [Nat.toDigitsCore] using h
  | succ fuel ih =>
    intro n ds h
    have hd : '\n' ∉ Nat.digitChar (n % 10) :: ds := by
      simp only [List.mem_cons, not_or]
      exact ⟨fun e => digitChar_ne_newline (n % 10) (Nat.mod_lt _ (by decide)) e.symm, h⟩
    simp only [Nat.toDigitsCore]
    split_ifs
    · exact hd
    · exact ih _ _ hd

theorem expDigits_no_newline (e : Nat) : '\n' ∉ expDigits e := by
  unfold expDigits
  split_ifs
  · exact digitsFixed_no_newline 2 e
  · exact toDigitsCore_no_newline _ _ _ (by simp)

theorem stripZeros_no_newline (l : List Char) (h : '\n' ∉ l) : '\n' ∉ stripZeros l := by
  intro hm
  unfold stripZeros at hm
  rw [List.mem_reverse] at hm
  have := (List.dropWhile_sublist _).subset hm
  exact h (List.mem_reverse.mp this)

theorem withFraction_no_newline (ip fp : List Char) (h1 : '\n' ∉ ip) (h2 : '\n' ∉ fp) :
    '\n' ∉ withFraction ip fp := by
  unfold withFraction
  split_ifs
  · exact h1
  · simp only [List.mem_append, List.mem_cons, not_or]
    exact ⟨h1, by decide, stripZeros_no_newline fp h2⟩

theorem formatGeneral_no_newline (s : Nat) (x : Int) : '\n' ∉ formatGeneral s x := by
  have hd := digitsFixed_no_newline 6 s
  have htake : ∀ k, '\n' ∉ (digitsFixed 6 s).take k :=
    fun k hm => hd ((List.take_sublist _ _).subset hm)
  have hdrop : ∀ k, '\n' ∉ (digitsFixed 6 s).drop k :=
    fun k hm => hd ((List.drop_sublist _ _).subset hm)
  unfold formatGeneral
  split_ifs
  · simp only [List.mem_append, List.mem_cons, not_or]
    exact ⟨withFraction_no_newline _ _ (htake _) (hdrop _), by decide, by decide,
      expDigits_no_newline _⟩
  · simp only [List.mem_append, List.mem_cons, not_or]
    exact ⟨withFraction_no_newline _ _ (htake _) (hdrop _), by decide, by decide,
      expDigits_no_newline _⟩
  · exact withFraction_no_newline _ _ (htake _) (hdrop _)
  · refine withFraction_no_newline _ _ (by decide) ?_
    simp only [List.mem_append, not_or]
    refine ⟨?_, hd⟩
    intro hm
    have := List.eq_of_mem_replicate hm
    exact absurd this (by decide)

theorem formatMagnitude_no_newline (m : Nat) (e : Int) : '\n' ∉ formatMagnitude m e := by
  unfold formatMagnitude
  split_ifs
  · decide
  · exact formatGeneral_no_newline _ _

theorem formatDouble_no_newline (x : Double) : '\n' ∉ formatDouble x := by
  cases x with
  | finite neg m e =>
    simp only [formatDouble]
    split_ifs
    · simp only [List.mem_cons, not_or]
      exact ⟨by decide, formatMagnitude_no_newline m e⟩
    · exact formatMagnitude_no_newline m e
  | inf neg =>
    simp only [formatDouble]
    split_ifs <;> decide
  | nan => decide

theorem recordText_no_newline (t : Transaction) (h : OneLine t) : '\n' ∉ recordText t := by
  unfold recordText
  simp only [List.mem_cons, List.mem_append, not_or]
  exact ⟨fun e => h.1 e.symm, by decide, formatDouble_no_newline _, by decide, h.2⟩

/-! ## Lines of the saved text -/

theorem textLines_line (l rest : List Char) (h : '\n' ∉ l) :
    textLines (l ++ '\n' :: rest) = l :: textLines rest := by
  induction l with
  | nil => simp [textLines]
  | cons c l ih =>
    have hc : c ≠ '\n' := fun e => h (by simp [e])
    have hl : '\n' ∉ l := fun hm => h (List.mem_cons_of_mem _ hm)
    have e : textLines (c :: (l ++ '\n' :: rest))
        = match textLines (l ++ '\n' :: rest) with
          | [] => [[c]]
          | l' :: ls => (c :: l') :: ls := by
      simp only [textLines, hc, if_false]
    rw [List.cons_append, e, ih hl]

theorem saveLine_eq (t : Transaction) : saveLine t = recordText t ++ ['\n'] := by
  simp [saveLine, recordText]

theorem textLines_saveLines (h : List Transaction) (hc : ∀ t ∈ h, OneLine t) :
    textLines (saveLines h) = h.map recordText := by
  induction h with
  | nil => simp [saveLines, textLines]
  | cons t rest ih =>
    have ht : OneLine t := hc t (List.mem_cons_self _ _)
    have hr : ∀ u ∈ rest, OneLine u := fun u hu => hc u (List.mem_cons_of_mem _ hu)
    simp only [saveLines, saveLine_eq, List.append_assoc, List.singleton_append, List.map_cons]
    rw [textLines_line _ _ (recordText_no_newline t ht), ih hr]

/-! ## The claims -/

/-- C1 as stated fails.  The entered deposit amount `1e400` is a number above
0, but it is too large for a `double`: nothing is read and the deposit is
refused, the account staying as it was.  The entered amount `1e-14` is read
and recorded, but the balance 500 plus this amount, rounded to a `double`, is
500 again: the balance after is not the exact sum of the balance before and
the amount. -/
theorem makeDeposit_overflow_and_rounding :
    scanFloat "1e400\n".data = (some (false, 1, 400), ['\n']) ∧
    0 < decimalValue false 1 400 ∧
    (makeDeposit freshAccount (IStream.fresh "1e400\n".data) "2024-05-01 09:30:00").1
      = freshAccount ∧
    depositInvalid ∈
      (makeDeposit freshAccount (IStream.fresh "1e400\n".data) "2024-05-01 09:30:00").2.2 ∧
    (extractDouble (IStream.fresh "1e-14\n".data)).1 = some (Double.ofDecimal false 1 (-14)) ∧
    Double.zero.lt (Double.ofDecimal false 1 (-14)) = true ∧
    (makeDeposit freshAccount (IStream.fresh "1e-14\n".data) "2024-05-01 09:30:00").1
      = { balance := Double.ofNat 500,
          history := [⟨Double.ofDecimal false 1 (-14), 'D', "2024-05-01 09:30:00"⟩],
          dataFile := "transactions.txt" } ∧
    (Double.ofNat 500).toRat
      ≠ (Double.ofNat 500).toRat + (Double.ofDecimal false 1 (-14)).toRat := by
  decide!

/-- C1, amended: for every account state and every entered deposit amount
that `cin >> amt` reads as a `double` `d > 0`, `makeDeposit` leaves the
balance equal to the `double` sum of the balance before and `d` (their exact
sum rounded to the nearest `double`), and the history equal to the history
before with exactly one record appended at the end, of kind `'D'`, amount `d`
and the current timestamp. -/
theorem makeDeposit_accepted (a : BankAccount) (cin : IStream) (now : String) (d : Double)
    (hread : (extractDouble cin).1 = some d) (hpos : Double.zero.lt d = true) :
    (makeDeposit a cin now).1.balance = a.balance.add d ∧
    (makeDeposit a cin now).1.history
      = a.history ++ [{ amount := d, type := 'D', timestamp := now }] := by
  rcases hx : extractDouble cin with ⟨r, cin1⟩
  rw [hx] at hread
  simp only at hread
  subst hread
  simp [makeDeposit, hx, not_le_zero_of_zero_lt d hpos]

/-- Witness of C1: depositing 100 into a fresh account of 500 gives 600. -/
theorem makeDeposit_accepted_witness :
    (extractDouble (IStream.fresh "100\n".data)).1 = some (Double.ofNat 100) ∧
    Double.zero.lt (Double.ofNat 100) = true ∧
    (Double.ofNat 500).add (Double.ofNat 100) = Double.ofNat 600 ∧
    (makeDeposit freshAccount (IStream.fresh "100\n".data) "2024-05-01 09:30:00").1.balance
      = (Double.ofNat 500).add (Double.ofNat 100) ∧
    (makeDeposit freshAccount (IStream.fresh "100\n".data) "2024-05-01 09:30:00").1.history
      = [] ++ [{ amount := Double.ofNat 100, type := 'D',
                 timestamp := "2024-05-01 09:30:00" }] :=
  ⟨by decide!, by decide!, by decide!,
   makeDeposit_accepted freshAccount (IStream.fresh "100\n".data)
     "2024-05-01 09:30:00" (Double.ofNat 100) (by decide!) (by decide!)⟩

/-- C2 as stated fails.  The entered withdrawal amount `1e-400` is a number
with `0 < w ≤ balance`, but it is too small for a `double` and is read as 0:
the withdrawal is refused.  The entered amount `1e-14` is read and recorded,
but the balance 500 minus this amount, rounded to a `double`, is 500 again:
the balance after is not the exact difference. -/
theorem makeWithdrawal_underflow_and_rounding :
    scanFloat "1e-400\n".data = (some (false, 1, -400), ['\n']) ∧
    0 < decimalValue false 1 (-400) ∧
    decimalValue false 1 (-400) ≤ (Double.ofNat 500).toRat ∧
    (makeWithdrawal freshAccount (IStream.fresh "1e-400\n".data) "2024-05-01 09:30:00").1
      = freshAccount ∧
    withdrawalInvalid ∈
      (makeWithdrawal freshAccount (IStream.fresh "1e-400\n".data)
        "2024-05-01 09:30:00").2.2 ∧
    (extractDouble (IStream.fresh "1e-14\n".data)).1 = some (Double.ofDecimal false 1 (-14)) ∧
    (makeWithdrawal freshAccount (IStream.fresh "1e-14\n".data) "2024-05-01 09:30:00").1
      = { balance := Double.ofNat 500,
          history := [⟨Double.ofDecimal false 1 (-14), 'W', "2024-05-01 09:30:00"⟩],
          dataFile := "transactions.txt" } ∧
    (Double.ofNat 500).toRat
      ≠ (Double.ofNat 500).toRat - (Double.ofDecimal false 1 (-14)).toRat := by
  decide!

/-- C2, amended: for every account state and every entered withdrawal amount
that `cin >> amt` reads as a `double` `w` with `0 < w <= balance`,
`makeWithdrawal` leaves the balance equal to the `double` difference of the
balance before and `w` (their exact difference rounded to the nearest
`double`), and the history equal to the history before with exactly one record
appended at the end, of kind `'W'`, amount `w` and the current timestamp. -/
theorem makeWithdrawal_accepted (a : BankAccount) (cin : IStream) (now : String)
    (w : Double) (hread : (extractDouble cin).1 = some w)
    (hpos : Double.zero.lt w = true) (hle : w.le a.balance = true) :
    (makeWithdrawal a cin now).1.balance = a.balance.sub w ∧
    (makeWithdrawal a cin now).1.history
      = a.history ++ [{ amount := w, type := 'W', timestamp := now }] := by
  rcases hx : extractDouble cin with ⟨r, cin1⟩
  rw [hx] at hread
  simp only at hread
  subst hread
  simp [makeWithdrawal, hx, not_le_zero_of_zero_lt w hpos, not_lt_of_le w a.balance hle]

/-- Witness of C2: withdrawing 120.50 from an account holding 600 leaves
479.5. -/
theorem makeWithdrawal_accepted_witness :
    (extractDouble (IStream.fresh "120.50\n".data)).1 = some (Double.ofDecimal false 1205 (-1)) ∧
    Double.zero.lt (Double.ofDecimal false 1205 (-1)) = true ∧
    (Double.ofDecimal false 1205 (-1)).le (Double.ofNat 600) = true ∧
    (Double.ofNat 600).sub (Double.ofDecimal false 1205 (-1)) = Double.ofDecimal false 4795 (-1) ∧
    (makeWithdrawal
        ⟨Double.ofNat 600, [⟨Double.ofNat 100, 'D', "2024-05-01 09:30:00"⟩], "transactions.txt"⟩
        (IStream.fresh "120.50\n".data) "2024-05-02 10:00:00").1.balance
      = (Double.ofNat 600).sub (Double.ofDecimal false 1205 (-1)) ∧
    (makeWithdrawal
        ⟨Double.ofNat 600, [⟨Double.ofNat 100, 'D', "2024-05-01 09:30:00"⟩], "transactions.txt"⟩
        (IStream.fresh "120.50\n".data) "2024-05-02 10:00:00").1.history
      = [⟨Double.ofNat 100, 'D', "2024-05-01 09:30:00"⟩]
          ++ [{ amount := Double.ofDecimal false 1205 (-1), type := 'W',
                timestamp := "2024-05-02 10:00:00" }] :=
  ⟨by decide!, by decide!, by decide!, by decide!,
   makeWithdrawal_accepted
     ⟨Double.ofNat 600, [⟨Double.ofNat 100, 'D', "2024-05-01 09:30:00"⟩], "transactions.txt"⟩
     (IStream.fresh "120.50\n".data) "2024-05-02 10:00:00" (Double.ofDecimal false 1205 (-1))
     (by decide!) (by decide!) (by decide!)⟩

/-- C5, evaluated at a failing input: with no data file, the user deposits
12345.67 and exits.  The account then holds 12845.67 and one record of
12345.67; `saveHistory` writes the amount with six significant digits, as
`12345.7`; the account constructed from the written file holds a record of
12345.7 and the balance 12845.7, so neither the transactions nor the balance
are reproduced. -/
theorem saveHistory_loadHistory_loses_digits :
    sessionRun.choice = 7 ∧
    sessionRun.account
      = ⟨Double.ofDecimal false 1284567 (-2),
         [⟨Double.ofDecimal false 1234567 (-2), 'D', "2024-05-01 09:30:00"⟩],
         "transactions.txt"⟩ ∧
    saveHistory sessionRun.account none = "D 12345.7 2024-05-01 09:30:00\n".data ∧
    defaultAccount (some (saveHistory sessionRun.account none))
      = ⟨Double.ofDecimal false 128457 (-1),
         [⟨Double.ofDecimal false 123457 (-1), 'D', "2024-05-01 09:30:00"⟩],
         "transactions.txt"⟩ ∧
    (defaultAccount (some (saveHistory sessionRun.account none))).history
      ≠ sessionRun.account.history ∧
    (defaultAccount (some (saveHistory sessionRun.account none))).balance
      ≠ sessionRun.account.balance := by
  decide!

/-- C6: for every account state with `balance >= 0` and every withdrawal
input, accepted or rejected, the balance after `makeWithdrawal` is `>= 0`;
and, for every account state, `makeDeposit` and `makeWithdrawal` either leave
the history as it was or append one record, whose amount is strictly
positive. -/
theorem withdrawal_never_overdraws (a : BankAccount) (cin : IStream) (now : String) :
    (Double.zero.le a.balance = true →
      Double.zero.le (makeWithdrawal a cin now).1.balance = true) ∧
    ((makeWithdrawal a cin now).1.history = a.history ∨
      ∃ t, (makeWithdrawal a cin now).1.history = a.history ++ [t] ∧
        Double.zero.lt t.amount = true) ∧
    ((makeDeposit a cin now).1.history = a.history ∨
      ∃ t, (makeDeposit a cin now).1.history = a.history ++ [t] ∧
        Double.zero.lt t.amount = true) := by
  rcases hx : extractDouble cin with ⟨_ | amt, cin1⟩
  · simp [makeWithdrawal, makeDeposit, hx]
  · have hfin := extractDouble_isFinite cin cin1 amt hx
    refine ⟨?_, ?_, ?_⟩
    · intro hbal
      by_cases h : (amt.le Double.zero || a.balance.lt amt) = true
      · simpa [makeWithdrawal, hx, h] using hbal
      · have h1 : amt.le Double.zero = false := by
          cases hh : amt.le Double.zero
          · rfl
          · simp [hh] at h
        have h2 : a.balance.lt amt = false := by
          cases hh : a.balance.lt amt
          · rfl
          · simp [hh] at h
        simp only [makeWithdrawal, hx, h1, h2, Bool.or_self, Bool.false_eq_true, if_false]
        exact sub_nonneg_of_le a.balance amt hfin hbal h1 h2
    · by_cases h : (amt.le Double.zero || a.balance.lt amt) = true
      · simp [makeWithdrawal, hx, h]
      · have h1 : amt.le Double.zero = false := by
          cases hh : amt.le Double.zero
          · rfl
          · simp [hh] at h
        right
        refine ⟨{ amount := amt, type := 'W', timestamp := now }, ?_,
          zero_lt_of_not_le amt hfin h1⟩
        simp [makeWithdrawal, hx, h]
    · by_cases h : amt.le Double.zero = true
      · simp [makeDeposit, hx, h]
      · have h1 : amt.le Double.zero = false := by simpa using h
        right
        refine ⟨{ amount := amt, type := 'D', timestamp := now }, ?_,
          zero_lt_of_not_le amt hfin h1⟩
        simp [makeDeposit, hx, h]

/-- Witness of C6: withdrawing the whole balance of 600 leaves 0, and the
record appended has the amount 600. -/
theorem withdrawal_never_overdraws_witness :
    Double.zero.le (Double.ofNat 600) = true ∧
    (makeWithdrawal ⟨Double.ofNat 600, [], "transactions.txt"⟩ (IStream.fresh "600\n".data)
        "2024-05-02 10:00:00").1
      = ⟨Double.zero, [⟨Double.ofNat 600, 'W', "2024-05-02 10:00:00"⟩], "transactions.txt"⟩ ∧
    Double.zero.le
      (makeWithdrawal ⟨Double.ofNat 600, [], "transactions.txt"⟩ (IStream.fresh "600\n".data)
        "2024-05-02 10:00:00").1.balance = true :=
  ⟨by decide!, by decide!,
   (withdrawal_never_overdraws ⟨Double.ofNat 600, [], "transactions.txt"⟩
      (IStream.fresh "600\n".data) "2024-05-02 10:00:00").1 (by decide!)⟩

/-- C7 as stated fails, in two ways.  A data file with the one line `X 10 t`
is loaded into a record of kind `'X'`, neither a deposit nor a withdrawal
record, and the balance is 490.  A data file with the lines `D 0.01 a`,
`W 0.04 b`, `D 0.03 c` gives the balance 499.99999999999994, the replay
rounded at each step, while 500 plus the sum of the deposits minus the sum of
the withdrawals is 500 when the sums are taken in `double` arithmetic, and
differs from the balance when they are taken exactly. -/
theorem reconciliation_fails_on_kind_and_rounding :
    defaultAccount (some "X 10 t\n".data)
      = ⟨Double.ofNat 490, [⟨Double.ofNat 10, 'X', "t"⟩], "transactions.txt"⟩ ∧
    (defaultAccount (some "X 10 t\n".data)).balance
      ≠ ((Double.ofNat 500).add
            (kindTotal 'D' (defaultAccount (some "X 10 t\n".data)).history Double.zero)).sub
          (kindTotal 'W' (defaultAccount (some "X 10 t\n".data)).history Double.zero) ∧
    (defaultAccount (some "D 0.01 a\nW 0.04 b\nD 0.03 c\n".data)).history
      = [⟨Double.ofDecimal false 1 (-2), 'D', "a"⟩, ⟨Double.ofDecimal false 4 (-2), 'W', "b"⟩,
         ⟨Double.ofDecimal false 3 (-2), 'D', "c"⟩] ∧
    (defaultAccount (some "D 0.01 a\nW 0.04 b\nD 0.03 c\n".data)).balance
      = .finite false 8796093022207999 (-44) ∧
    ((Double.ofNat 500).add
          (kindTotal 'D' (defaultAccount (some "D 0.01 a\nW 0.04 b\nD 0.03 c\n".data)).history
            Double.zero)).sub
        (kindTotal 'W' (defaultAccount (some "D 0.01 a\nW 0.04 b\nD 0.03 c\n".data)).history
          Double.zero)
      = Double.ofNat 500 ∧
    Double.ofNat 500 = .finite false 8796093022208000 (-44) ∧
    (defaultAccount (some "D 0.01 a\nW 0.04 b\nD 0.03 c\n".data)).balance.toRat
      ≠ 500
        + kindTotalExact 'D'
            (defaultAccount (some "D 0.01 a\nW 0.04 b\nD 0.03 c\n".data)).history
        - kindTotalExact 'W'
            (defaultAccount (some "D 0.01 a\nW 0.04 b\nD 0.03 c\n".data)).history := by
  decide!

/-- C7, amended: after construction from any data file (which loads the
persisted history starting from 500.00) and after any number of rounds of the
menu loop on any input, the balance is the result of replaying the history in
order from 500.00 in `double` arithmetic: the amount of each record of kind
`'D'` is added and the amount of each record of any other kind is subtracted,
each step rounded to the nearest `double`. -/
theorem balance_reconciled (file : Option (List Char)) (cin : IStream)
    (clock : List String) :
    (loopRounds clock (mainStart file cin)).account.balance
      = replay (Double.ofNat 500) (loopRounds clock (mainStart file cin)).account.history :=
  loopRounds_replayed (Double.ofNat 500) clock (mainStart file cin)
    (construct_replayed (Double.ofNat 500) "transactions.txt" file)

/-! ## Listings -/

theorem listByType_of_ne_nil (a : BankAccount) (filter : Char) (h : a.history ≠ []) :
    listByType a filter = listHeader ++ listRows filter a.history := by
  unfold listByType
  cases hh : a.history with
  | nil => exact absurd hh h
  | cons t rest => simp

theorem listRows_deposits (h : List Transaction) :
    listRows 'D' h
      = (h.filter (fun t => decide (t.type = 'D'))).flatMap
          (fun t => [.str "Deposit", .chr '$', .num t.amount, .str t.timestamp, .chr '\n']) := by
  have hA : ('D' : Char) ≠ 'A' := by decide
  induction h with
  | nil => simp [listRows]
  | cons t rest ih =>
    by_cases ht : t.type = 'D'
    · simp [listRows, listRow, ht, ih]
    · simp [listRows, hA, ht, ih]

theorem listRows_withdrawals (h : List Transaction) :
    listRows 'W' h
      = (h.filter (fun t => decide (t.type = 'W'))).flatMap
          (fun t => [.str "Withdrawal", .chr '$', .num t.amount, .str t.timestamp,
            .chr '\n']) := by
  have hA : ('W' : Char) ≠ 'A' := by decide
  have hD : ('W' : Char) ≠ 'D' := by decide
  induction h with
  | nil => simp [listRows]
  | cons t rest ih =>
    by_cases ht : t.type = 'W'
    · simp [listRows, listRow, ht, hD, ih]
    · simp [listRows, hA, ht, ih]

theorem listRows_all (h : List Transaction) :
    listRows 'A' h
      = h.flatMap
          (fun t => [.str (if t.type = 'D' then "Deposit" else "Withdrawal"), .chr '$',
            .num t.amount, .str t.timestamp, .chr '\n']) := by
  induction h with
  | nil => simp [listRows]
  | cons t rest ih => simp [listRows, listRow, ih]

theorem listRows_no_match (filter : Char) (h : List Transaction)
    (hno : ∀ t ∈ h, ¬ (filter = 'A' ∨ t.type = filter)) : listRows filter h = [] := by
  induction h with
  | nil => simp [listRows]
  | cons t rest ih =>
    have ht := hno t (List.mem_cons_self _ _)
    have hc : filter ≠ 'A' ∧ t.type ≠ filter :=
      ⟨fun e => ht (Or.inl e), fun e => ht (Or.inr e)⟩
    simp only [listRows, hc, and_self, ne_eq, not_false_eq_true, if_true]
    exact ih (fun u hu => hno u (List.mem_cons_of_mem _ hu))

/-- C8: for every non-empty history, `listByType('D')` prints, after the
header and the rule, one row for each record of kind `'D'` and no other, in
the order of the history: the label `Deposit`, `$`, the amount, the timestamp
and a newline; likewise `listByType('W')` for the records of kind `'W'`, with
the label `Withdrawal`; and `listByType('A')` prints one row for every record,
in order, labelled `Deposit` for kind `'D'` and `Withdrawal` otherwise. -/
theorem listByType_filters (a : BankAccount) (h : a.history ≠ []) :
    listByType a 'D'
      = [.str "Type", .str "Amount", .str "Timestamp\n",
         .str "---------------------------------------------\n"]
        ++ (a.history.filter (fun t => decide (t.type = 'D'))).flatMap
            (fun t => [.str "Deposit", .chr '$', .num t.amount, .str t.timestamp,
              .chr '\n']) ∧
    listByType a 'W'
      = [.str "Type", .str "Amount", .str "Timestamp\n",
         .str "---------------------------------------------\n"]
        ++ (a.history.filter (fun t => decide (t.type = 'W'))).flatMap
            (fun t => [.str "Withdrawal", .chr '$', .num t.amount, .str t.timestamp,
              .chr '\n']) ∧
    listByType a 'A'
      = [.str "Type", .str "Amount", .str "Timestamp\n",
         .str "---------------------------------------------\n"]
        ++ a.history.flatMap
            (fun t => [.str (if t.type = 'D' then "Deposit" else "Withdrawal"), .chr '$',
              .num t.amount, .str t.timestamp, .chr '\n']) := by
  refine ⟨?_, ?_, ?_⟩
  · rw [listByType_of_ne_nil a 'D' h, listRows_deposits]
    rfl
  · rw [listByType_of_ne_nil a 'W' h, listRows_withdrawals]
    rfl
  · rw [listByType_of_ne_nil a 'A' h, listRows_all]
    rfl

/-- Witness of C8: a history of a deposit, a withdrawal and a deposit, listed
under the deposit filter. -/
theorem listByType_filters_witness :
    ([⟨Double.ofNat 100, 'D', "t1"⟩, ⟨Double.ofNat 30, 'W', "t2"⟩,
      ⟨Double.ofNat 5, 'D', "t3"⟩] : List Transaction) ≠ [] ∧
    listByType
        ⟨Double.ofNat 575,
         [⟨Double.ofNat 100, 'D', "t1"⟩, ⟨Double.ofNat 30, 'W', "t2"⟩,
          ⟨Double.ofNat 5, 'D', "t3"⟩], "transactions.txt"⟩ 'D'
      = [.str "Type", .str "Amount", .str "Timestamp\n",
         .str "---------------------------------------------\n",
         .str "Deposit", .chr '$', .num (Double.ofNat 100), .str "t1", .chr '\n',
         .str "Deposit", .chr '$', .num (Double.ofNat 5), .str "t3", .chr '\n'] :=
  ⟨by decide,
   ((listByType_filters
      ⟨Double.ofNat 575,
       [⟨Double.ofNat 100, 'D', "t1"⟩, ⟨Double.ofNat 30, 'W', "t2"⟩,
        ⟨Double.ofNat 5, 'D', "t3"⟩], "transactions.txt"⟩ (by decide)).1).trans (by decide!)⟩

/-- C9 as stated fails: the second line of the file `D 100 t` / `xyz` is
malformed (`xyz` alone gives no record), yet the account constructed from the
file keeps the record of the first line and holds 600. -/
theorem load_malformed_keeps_earlier_records :
    (extractRecord (IStream.fresh "xyz\n".data)).1 = none ∧
    defaultAccount (some "D 100 t\nxyz\n".data)
      = ⟨Double.ofNat 600, [⟨Double.ofNat 100, 'D', "t"⟩], "transactions.txt"⟩ ∧
    ¬ ((defaultAccount (some "D 100 t\nxyz\n".data)).history = [] ∧
       (defaultAccount (some "D 100 t\nxyz\n".data)).balance = Double.ofNat 500) := by
  decide!

/-- C9, amended: for every data file that is absent, or whose first record is
malformed (the first `fin >> type >> amt` fails), the account after
construction has an empty history and the balance 500.00. -/
theorem load_absent_or_first_record_malformed (file : Option (List Char))
    (h : file = none ∨
      ∃ cs, file = some cs ∧ (extractRecord (IStream.fresh cs)).1 = none) :
    defaultAccount file = ⟨Double.ofNat 500, [], "transactions.txt"⟩ := by
  rcases h with h | ⟨cs, h, hbad⟩
  · subst h
    rfl
  · subst h
    exact loadLoop_of_fail _ _ _ _ hbad

/-- Witness of the amended C9: a file holding only the line `xyz`, and a file
whose first amount `1e400` is too large for a `double`. -/
theorem load_absent_or_first_record_malformed_witness :
    (extractRecord (IStream.fresh "xyz\n".data)).1 = none ∧
    defaultAccount (some "xyz\n".data) = ⟨Double.ofNat 500, [], "transactions.txt"⟩ ∧
    (extractRecord (IStream.fresh "D 1e400 t\nD 5 u\n".data)).1 = none ∧
    defaultAccount (some "D 1e400 t\nD 5 u\n".data)
      = ⟨Double.ofNat 500, [], "transactions.txt"⟩ :=
  ⟨by decide!,
   load_absent_or_first_record_malformed (some "xyz\n".data)
     (Or.inr ⟨"xyz\n".data, rfl, by decide!⟩),
   by decide!,
   load_absent_or_first_record_malformed (some "D 1e400 t\nD 5 u\n".data)
     (Or.inr ⟨"D 1e400 t\nD 5 u\n".data, rfl, by decide!⟩)⟩

/-- C10 as stated fails: in a history holding one withdrawal no record matches
the deposit filter, and `listByType('D')` prints the header and the rule, not
the report `(no transactions)`. -/
theorem listByType_no_match_prints_header :
    (∀ t ∈ ([⟨Double.ofNat 5, 'W', "t"⟩] : List Transaction), t.type ≠ 'D') ∧
    listByType ⟨Double.ofNat 495, [⟨Double.ofNat 5, 'W', "t"⟩], "transactions.txt"⟩ 'D'
      = [.str "Type", .str "Amount", .str "Timestamp\n",
         .str "---------------------------------------------\n"] ∧
    listByType ⟨Double.ofNat 495, [⟨Double.ofNat 5, 'W', "t"⟩], "transactions.txt"⟩ 'D'
      ≠ [.str "(no transactions)\n"] := by
  decide!

/-- C10, amended: for every history and every filter such that no record of
the history matches the filter, the listing outputs the report
`(no transactions)` when the history is empty, and the header and the rule
with no row when it is not. -/
theorem listByType_no_match (a : BankAccount) (filter : Char)
    (hno : ∀ t ∈ a.history, ¬ (filter = 'A' ∨ t.type = filter)) :
    listByType a filter
      = if a.history = [] then [.str "(no transactions)\n"]
        else [.str "Type", .str "Amount", .str "Timestamp\n",
              .str "---------------------------------------------\n"] := by
  by_cases hh : a.history = []
  · simp [listByType, hh, noTransactions]
  · rw [if_neg hh, listByType_of_ne_nil a filter hh, listRows_no_match filter a.history hno]
    rfl

/-- Witness of the amended C10: one withdrawal listed under the deposit
filter. -/
theorem listByType_no_match_witness :
    (∀ t ∈ (⟨Double.ofNat 495, [⟨Double.ofNat 5, 'W', "t"⟩],
              "transactions.txt"⟩ : BankAccount).history,
        ¬ ('D' = 'A' ∨ t.type = 'D')) ∧
    listByType ⟨Double.ofNat 495, [⟨Double.ofNat 5, 'W', "t"⟩], "transactions.txt"⟩ 'D'
      = [.str "Type", .str "Amount", .str "Timestamp\n",
         .str "---------------------------------------------\n"] :=
  ⟨by decide!,
   (listByType_no_match ⟨Double.ofNat 495, [⟨Double.ofNat 5, 'W', "t"⟩], "transactions.txt"⟩
      'D' (by decide!)).trans (by decide!)⟩

/-- C11: starting from an account with balance 500.00 and empty history, a
deposit of 100 gives balance 600.00; a following withdrawal of 700 is rejected
and the balance is still 600.00; a following withdrawal of 600 is accepted and
gives balance 0.00, the history then holding exactly the deposit of 100
followed by the withdrawal of 600.  The clock readings are arbitrary. -/
theorem scenario_deposit_refusal_withdrawal (t1 t2 t3 : String) :
    (scenarioDeposit t1).1.balance = Double.ofNat 600 ∧
    withdrawalInvalid ∈ (scenarioRefused t1 t2).2.2 ∧
    (scenarioRefused t1 t2).1.balance = Double.ofNat 600 ∧
    (scenarioRefused t1 t2).1.history = (scenarioDeposit t1).1.history ∧
    (scenarioWithdrawn t1 t2 t3).1.balance = Double.ofNat 0 ∧
    (scenarioWithdrawn t1 t2 t3).1.history
      = [{ amount := Double.ofNat 100, type := 'D', timestamp := t1 },
         { amount := Double.ofNat 600, type := 'W', timestamp := t3 }] := by
  have h1 : extractDouble scenarioInput
      = (some (Double.ofNat 100),
         { buf := "\n700\n600\n".data, eofbit := false, failbit := false }) := by
    decide!
  have h2 : extractDouble { buf := "\n700\n600\n".data, eofbit := false, failbit := false }
      = (some (Double.ofNat 700),
         { buf := "\n600\n".data, eofbit := false, failbit := false }) := by
    decide!
  have h3 : extractDouble { buf := "\n600\n".data, eofbit := false, failbit := false }
      = (some (Double.ofNat 600), { buf := "\n".data, eofbit := false, failbit := false }) := by
    decide!
  have c1 : (Double.ofNat 100).le Double.zero = false := by decide!
  have c2 : (Double.ofNat 700).le Double.zero = false := by decide!
  have c3 : (Double.ofNat 600).lt (Double.ofNat 700) = true := by decide!
  have c4 : (Double.ofNat 600).le Double.zero = false := by decide!
  have c5 : (Double.ofNat 600).lt (Double.ofNat 600) = false := by decide!
  have a1 : (Double.ofNat 500).add (Double.ofNat 100) = Double.ofNat 600 := by decide!
  have a2 : (Double.ofNat 600).sub (Double.ofNat 600) = Double.ofNat 0 := by decide!
  have e1 : scenarioDeposit t1
      = ({ balance := Double.ofNat 600,
           history := [{ amount := Double.ofNat 100, type := 'D', timestamp := t1 }],
           dataFile := "transactions.txt" },
         { buf := "\n700\n600\n".data, eofbit := false, failbit := false },
         [.str "Enter deposit amount: $", .str "Deposited $", .num (Double.ofNat 100),
          .str ".\n"]) := by
    simp [scenarioDeposit, makeDeposit, freshAccount, h1, c1, a1]
  have e2 : scenarioRefused t1 t2
      = ({ balance := Double.ofNat 600,
           history := [{ amount := Double.ofNat 100, type := 'D', timestamp := t1 }],
           dataFile := "transactions.txt" },
         { buf := "\n600\n".data, eofbit := false, failbit := false },
         [.str "Enter withdrawal amount: $", withdrawalInvalid]) := by
    simp [scenarioRefused, e1, makeWithdrawal, h2, c2, c3]
  have e3 : scenarioWithdrawn t1 t2 t3
      = ({ balance := Double.ofNat 0,
           history := [{ amount := Double.ofNat 100, type := 'D', timestamp := t1 },
                       { amount := Double.ofNat 600, type := 'W', timestamp := t3 }],
           dataFile := "transactions.txt" },
         { buf := "\n".data, eofbit := false, failbit := false },
         [.str "Enter withdrawal amount: $", .str "Withdrew $", .num (Double.ofNat 600),
          .str ".\n"]) := by
    simp [scenarioWithdrawn, e2, makeWithdrawal, h3, c4, c5, a2]
  rw [e3, e2, e1]
  simp

/-- C12 as stated fails.  The menu input `2abc` is not a number, yet the loop
reads the choice 2 from it, discards `abc` and makes a deposit of the next
line, 50: the state is changed and no error message is printed.  The menu
input `7x` is not a number either, and the loop reads the choice 7 from it and
ends. -/
theorem menu_input_with_trailing_text_acts :
    extractInt (IStream.fresh "2abc\n50\n".data) 0
      = (true, 2, { buf := "abc\n50\n".data, eofbit := false, failbit := false }) ∧
    (loopBody "2024-05-01 09:30:00" (roundStart freshAccount "2abc\n50\n" 0)).account
      = ⟨Double.ofNat 550, [⟨Double.ofNat 50, 'D', "2024-05-01 09:30:00"⟩],
          "transactions.txt"⟩ ∧
    Out.str "Please enter a number 1-7.\n"
      ∉ (loopBody "2024-05-01 09:30:00" (roundStart freshAccount "2abc\n50\n" 0)).out ∧
    Out.str "Choose 1-7 only.\n"
      ∉ (loopBody "2024-05-01 09:30:00" (roundStart freshAccount "2abc\n50\n" 0)).out ∧
    (loopBody "2024-05-01 09:30:00" (roundStart freshAccount "7x\n1\n" 0)).choice = 7 ∧
    loopRounds ["2024-05-01 09:31:00"]
        (loopBody "2024-05-01 09:30:00" (roundStart freshAccount "7x\n1\n" 0))
      = loopBody "2024-05-01 09:30:00" (roundStart freshAccount "7x\n1\n" 0) := by
  decide!

/-- C12, amended: inside the loop (`choice` is not 7), for every account state
and every menu input from whose beginning no `int` can be read (it does not
begin with a decimal integer, or the integer is out of the range of `int`) or
whose leading integer is outside 1-7, the round prints the menu and one of the
two error messages, leaves the account (balance and history) unchanged and
leaves `choice` different from 7, so that the loop goes on with a further
round, which prints the menu again. -/
theorem invalid_menu_input_keeps_state (now : String) (s : MainState)
    (hloop : s.choice ≠ 7)
    (hbad : (extractInt s.cin s.choice).1 = false ∨
      (extractInt s.cin s.choice).2.1 < 1 ∨ 7 < (extractInt s.cin s.choice).2.1) :
    ((loopBody now s).out
        = s.out ++
          [.str "\n========== MAIN MENU ==========\n", .str "Balance: $",
           .num s.account.balance, .str "\n", .str "\n1) Balance\n",
           .str "2) Make a Deposit\n", .str "3) Make a Withdrawal\n",
           .str "4) Deposit History\n", .str "5) Withdrawal History\n",
           .str "6) All Deposits and Withdrawals\n", .str "7) Exit\n",
           .str "Select an option: "] ++ [.str "Please enter a number 1-7.\n"] ∨
     (loopBody now s).out
        = s.out ++
          [.str "\n========== MAIN MENU ==========\n", .str "Balance: $",
           .num s.account.balance, .str "\n", .str "\n1) Balance\n",
           .str "2) Make a Deposit\n", .str "3) Make a Withdrawal\n",
           .str "4) Deposit History\n", .str "5) Withdrawal History\n",
           .str "6) All Deposits and Withdrawals\n", .str "7) Exit\n",
           .str "Select an option: "] ++ [.str "Choose 1-7 only.\n"]) ∧
    (loopBody now s).account = s.account ∧
    (loopBody now s).choice ≠ 7 ∧
    ∀ (now2 : String) (clock : List String),
      loopRounds (now2 :: clock) (loopBody now s)
        = loopRounds clock (loopBody now2 (loopBody now s)) ∧
      ∃ o, (loopBody now2 (loopBody now s)).out
        = (loopBody now s).out ++
          [.str "\n========== MAIN MENU ==========\n", .str "Balance: $",
           .num s.account.balance, .str "\n", .str "\n1) Balance\n",
           .str "2) Make a Deposit\n", .str "3) Make a Withdrawal\n",
           .str "4) Deposit History\n", .str "5) Withdrawal History\n",
           .str "6) All Deposits and Withdrawals\n", .str "7) Exit\n",
           .str "Select an option: "] ++ o := by
  rw [← menuText_eq]
  have key : ((loopBody now s).out
        = s.out ++ menuText s.account ++ [.str "Please enter a number 1-7.\n"] ∨
      (loopBody now s).out = s.out ++ menuText s.account ++ [.str "Choose 1-7 only.\n"]) ∧
      (loopBody now s).account = s.account ∧ (loopBody now s).choice ≠ 7 := by
    have hf := extractInt_fail_choice s.cin s.choice hloop
    unfold loopBody
    rcases hx : extractInt s.cin s.choice with ⟨_ | _, ch, cin1⟩
    · rw [hx] at hf
      exact ⟨Or.inl rfl, rfl, hf rfl⟩
    · rw [hx] at hbad
      have hout : ch < 1 ∨ 7 < ch := by simpa using hbad
      have hd : dispatch s.account (ignoreLine cin1) ch now
          = (s.account, ignoreLine cin1, [.str "Choose 1-7 only.\n"]) := by
        unfold dispatch
        have c1 : ch ≠ 1 := by omega
        have c2 : ch ≠ 2 := by omega
        have c3 : ch ≠ 3 := by omega
        have c4 : ch ≠ 4 := by omega
        have c5 : ch ≠ 5 := by omega
        have c6 : ch ≠ 6 := by omega
        have c7 : ch ≠ 7 := by omega
        simp [c1, c2, c3, c4, c5, c6, c7]
      dsimp only
      rw [hd]
      refine ⟨Or.inr rfl, rfl, ?_⟩
      show ch ≠ 7
      omega
  refine ⟨key.1, key.2.1, key.2.2, ?_⟩
  intro now2 clock
  constructor
  · conv_lhs => unfold loopRounds
    rw [if_neg key.2.2]
  · obtain ⟨o, ho⟩ := loopBody_out now2 (loopBody now s)
    rw [key.2.1] at ho
    exact ⟨o, ho⟩

/-- Witness of C12: the input line `abc` on the menu of a fresh account; the
next round reads the following line. -/
theorem invalid_menu_input_keeps_state_witness :
    (0 : Int) ≠ 7 ∧
    (extractInt (IStream.fresh "abc\n7\n".data) 0).1 = false ∧
    (loopBody "2024-05-01 09:30:00" (roundStart freshAccount "abc\n7\n" 0))
      = { account := freshAccount,
          cin := { buf := "7\n".data, eofbit := false, failbit := false },
          choice := 0,
          out := [.str "\n========== MAIN MENU ==========\n", .str "Balance: $",
                  .num (Double.ofNat 500), .str "\n", .str "\n1) Balance\n",
                  .str "2) Make a Deposit\n", .str "3) Make a Withdrawal\n",
                  .str "4) Deposit History\n", .str "5) Withdrawal History\n",
                  .str "6) All Deposits and Withdrawals\n", .str "7) Exit\n",
                  .str "Select an option: ", .str "Please enter a number 1-7.\n"] } ∧
    (loopBody "2024-05-01 09:30:00" (roundStart freshAccount "abc\n7\n" 0)).account
      = (roundStart freshAccount "abc\n7\n" 0).account ∧
    (loopBody "2024-05-01 09:30:00" (roundStart freshAccount "abc\n7\n" 0)).choice ≠ 7 :=
  ⟨by decide, by decide!, by decide!,
   (invalid_menu_input_keeps_state "2024-05-01 09:30:00"
      (roundStart freshAccount "abc\n7\n" 0) (by decide) (Or.inl (by decide!))).2.1,
   (invalid_menu_input_keeps_state "2024-05-01 09:30:00"
      (roundStart freshAccount "abc\n7\n" 0) (by decide) (Or.inl (by decide!))).2.2.1⟩

/-- C14: with an empty history, `listAllTransactions` prints the report
`(no transactions)` and nothing else, neither header nor row; the same holds
for `listDeposits` and `listWithdrawals`. -/
theorem listings_of_empty_history (a : BankAccount) (h : a.history = []) :
    listAllTransactions a = [.str "(no transactions)\n"] ∧
    listDeposits a = [.str "(no transactions)\n"] ∧
    listWithdrawals a = [.str "(no transactions)\n"] := by
  simp [listAllTransactions, listDeposits, listWithdrawals, listByType, h, noTransactions]

/-- Witness of C14: the account constructed from an absent data file, and
from an empty one, has an empty history and lists `(no transactions)`. -/
theorem listings_of_empty_history_witness :
    (defaultAccount none).history = [] ∧
    (defaultAccount (some [])).history = [] ∧
    listAllTransactions (defaultAccount none) = [.str "(no transactions)\n"] ∧
    listAllTransactions (defaultAccount (some [])) = [.str "(no transactions)\n"] :=
  ⟨by decide!, by decide!,
   (listings_of_empty_history (defaultAccount none) (by decide!)).1,
   (listings_of_empty_history (defaultAccount (some [])) (by decide!)).1⟩

/-- C15: every round of the menu loop, whatever the input, leaves the history
it found as the beginning of the new history and appends at most one record
to it; when the choice read is 1, 4, 5, 6 or 7, and also when the input is
invalid, the account (balance and history) is unchanged. -/
theorem history_append_only (now : String) (s : MainState) :
    (∃ l, (loopBody now s).account.history = s.account.history ++ l ∧ l.length ≤ 1) ∧
    ((extractInt s.cin s.choice).1 = false ∨
      ((extractInt s.cin s.choice).2.1 ≠ 2 ∧ (extractInt s.cin s.choice).2.1 ≠ 3) →
      (loopBody now s).account = s.account) := by
  unfold loopBody
  rcases hx : extractInt s.cin s.choice with ⟨_ | _, ch, cin1⟩
  · exact ⟨⟨[], by simp⟩, fun _ => rfl⟩
  · refine ⟨dispatch_history s.account (ignoreLine cin1) ch now, ?_⟩
    intro h
    have h2 : ch ≠ 2 ∧ ch ≠ 3 := by simpa using h
    exact dispatch_readonly s.account (ignoreLine cin1) ch now h2

/-- Witness of C15: choice 4 on an account with one record changes nothing. -/
theorem history_append_only_witness :
    (extractInt (IStream.fresh "4\n".data) 0).2.1 = 4 ∧
    (loopBody "2024-05-01 09:30:00"
        (roundStart ⟨Double.ofNat 600, [⟨Double.ofNat 100, 'D', "t"⟩], "transactions.txt"⟩
          "4\n" 0)).account
      = ⟨Double.ofNat 600, [⟨Double.ofNat 100, 'D', "t"⟩], "transactions.txt"⟩ :=
  ⟨by decide!,
   (history_append_only "2024-05-01 09:30:00"
      (roundStart ⟨Double.ofNat 600, [⟨Double.ofNat 100, 'D', "t"⟩], "transactions.txt"⟩
        "4\n" 0)).2
     (Or.inr (by decide!))⟩

/-! ## Every record the program holds fits on one line -/

theorem skipWs_head (l : List Char) (c : Char) (cs : List Char)
    (h : skipWs l = c :: cs) : isSpace c = false := by
  induction l with
  | nil => simp [skipWs] at h
  | cons d ds ih =>
    unfold skipWs at h
    by_cases hd : isSpace d = true
    · rw [if_pos hd] at h
      exact ih h
    · rw [if_neg hd] at h
      simp only [List.cons.injEq] at h
      rw [← h.1]
      simpa using hd

theorem sentry_ok_head (s : IStream) (c : Char) (cs : List Char)
    (h : sentry s = .ok (c, cs)) : c ≠ '\n' := by
  unfold sentry at h
  by_cases hg : s.good = true
  · rw [if_pos hg] at h
    cases hk : skipWs s.buf with
    | nil => rw [hk] at h; simp at h
    | cons c' cs' =>
      rw [hk] at h
      simp only [Except.ok.injEq, Prod.mk.injEq] at h
      have hsp := skipWs_head s.buf c' cs' hk
      rw [h.1] at hsp
      intro e
      rw [e] at hsp
      exact absurd hsp (by decide)
  · rw [if_neg hg] at h
    exact absurd h (by simp)

theorem extractChar_some_ne_newline (s s1 : IStream) (c : Char)
    (h : extractChar s = (some c, s1)) : c ≠ '\n' := by
  unfold extractChar at h
  cases hs : sentry s with
  | error e => rw [hs] at h; simp at h
  | ok p =>
    obtain ⟨c', cs⟩ := p
    rw [hs] at h
    simp only [Prod.mk.injEq, Option.some.injEq] at h
    rw [← h.1]
    exact sentry_ok_head s c' cs hs

theorem extractRecord_kind_ne_newline (fin fin2 : IStream) (ty : Char) (amt : Double)
    (h : extractRecord fin = (some (ty, amt), fin2)) : ty ≠ '\n' := by
  unfold extractRecord at h
  rcases hc : extractChar fin with ⟨_ | c, fin1⟩
  · rw [hc] at h; simp at h
  · rw [hc] at h
    dsimp only at h
    rcases hd : extractDouble fin1 with ⟨_ | x, fin2'⟩
    · rw [hd] at h; simp at h
    · rw [hd] at h
      simp only [Prod.mk.injEq, Option.some.injEq] at h
      rw [← h.1.1]
      exact extractChar_some_ne_newline fin fin1 c hc

theorem splitLine_no_newline (l : List Char) : '\n' ∉ (splitLine l).1 := by
  induction l with
  | nil => simp [splitLine]
  | cons c cs ih =>
    unfold splitLine
    by_cases hc : c = '\n'
    · rw [if_pos hc]
      simp
    · rw [if_neg hc]
      simp only [List.mem_cons, not_or]
      exact ⟨fun e => hc e.symm, ih⟩

theorem getline_no_newline (s : IStream) (ts : String) (h : '\n' ∉ ts.data) :
    '\n' ∉ (getline s ts).1.data := by
  unfold getline
  split_ifs
  · exact splitLine_no_newline s.buf
  · exact h

theorem eraseLeadingSpace_no_newline (ts : String) (h : '\n' ∉ ts.data) :
    '\n' ∉ (eraseLeadingSpace ts).data := by
  unfold eraseLeadingSpace
  cases hd : ts.data with
  | nil => exact h
  | cons c cs =>
    dsimp only
    split_ifs
    · intro hm
      exact h (by rw [hd]; exact List.mem_cons_of_mem _ hm)
    · exact h

theorem oneLine_push (a : BankAccount) (t : Transaction) (bal : Double)
    (ha : ∀ u ∈ a.history, OneLine u) (ht : OneLine t) :
    ∀ u ∈ ({ a with history := a.history ++ [t], balance := bal } : BankAccount).history,
      OneLine u := by
  intro u hu
  simp only [List.mem_append, List.mem_singleton] at hu
  rcases hu with hu | hu
  · exact ha u hu
  · rw [hu]; exact ht

theorem loadLoop_oneLine :
    ∀ (fuel : Nat) (fin : IStream) (ts : String) (a : BankAccount),
      '\n' ∉ ts.data → (∀ u ∈ a.history, OneLine u) →
      ∀ u ∈ (loadLoop fuel fin ts a).history, OneLine u := by
  intro fuel
  induction fuel with
  | zero => intro fin ts a _ ha; exact ha
  | succ n ih =>
    intro fin ts a hts ha
    unfold loadLoop
    rcases hr : extractRecord fin with ⟨_ | ⟨ty, amt⟩, fin2⟩
    · exact ha
    · have hline := eraseLeadingSpace_no_newline _ (getline_no_newline fin2 ts hts)
      exact ih _ _ _ hline
        (oneLine_push a _ _ ha ⟨extractRecord_kind_ne_newline fin fin2 ty amt hr, hline⟩)

theorem defaultAccount_oneLine (file : Option (List Char)) :
    ∀ u ∈ (defaultAccount file).history, OneLine u := by
  have h0 : ∀ u ∈ (BankAccount.mk (Double.ofNat 500) [] "transactions.txt").history,
      OneLine u := by
    intro u hu
    simp at hu
  cases file with
  | none => exact h0
  | some cs => exact loadLoop_oneLine _ _ _ _ (by simp) h0

theorem makeDeposit_oneLine (a : BankAccount) (cin : IStream) (now : String)
    (hnow : '\n' ∉ now.data) (ha : ∀ u ∈ a.history, OneLine u) :
    ∀ u ∈ (makeDeposit a cin now).1.history, OneLine u := by
  unfold makeDeposit
  rcases hx : extractDouble cin with ⟨_ | amt, cin1⟩
  · exact ha
  · by_cases h : amt.le Double.zero = true
    · simpa [h] using ha
    · simp only [h, if_false]
      exact oneLine_push a { amount := amt, type := 'D', timestamp := now }
        (a.balance.add amt) ha
        ⟨by show ('D' : Char) ≠ '\n'; decide, hnow⟩

theorem makeWithdrawal_oneLine (a : BankAccount) (cin : IStream) (now : String)
    (hnow : '\n' ∉ now.data) (ha : ∀ u ∈ a.history, OneLine u) :
    ∀ u ∈ (makeWithdrawal a cin now).1.history, OneLine u := by
  unfold makeWithdrawal
  rcases hx : extractDouble cin with ⟨_ | amt, cin1⟩
  · exact ha
  · by_cases h : (amt.le Double.zero || a.balance.lt amt) = true
    · simpa [h] using ha
    · simp only [h, if_false]
      exact oneLine_push a { amount := amt, type := 'W', timestamp := now }
        (a.balance.sub amt) ha
        ⟨by show ('W' : Char) ≠ '\n'; decide, hnow⟩

theorem dispatch_oneLine (a : BankAccount) (cin : IStream) (choice : Int) (now : String)
    (hnow : '\n' ∉ now.data) (ha : ∀ u ∈ a.history, OneLine u) :
    ∀ u ∈ (dispatch a cin choice now).1.history, OneLine u := by
  unfold dispatch
  split_ifs
  · exact ha
  · exact makeDeposit_oneLine a cin now hnow ha
  · exact makeWithdrawal_oneLine a cin now hnow ha
  all_goals exact ha

theorem loopBody_oneLine (now : String) (s : MainState) (hnow : '\n' ∉ now.data)
    (ha : ∀ u ∈ s.account.history, OneLine u) :
    ∀ u ∈ (loopBody now s).account.history, OneLine u := by
  unfold loopBody
  rcases hx : extractInt s.cin s.choice with ⟨_ | _, ch, cin1⟩
  · exact ha
  · exact dispatch_oneLine s.account _ ch now hnow ha

theorem loopRounds_oneLine :
    ∀ (clock : List String) (s : MainState),
      (∀ now ∈ clock, '\n' ∉ now.data) → (∀ u ∈ s.account.history, OneLine u) →
      ∀ u ∈ (loopRounds clock s).account.history, OneLine u := by
  intro clock
  induction clock with
  | nil => intro s _ ha; exact ha
  | cons now rest ih =>
    intro s hclock ha
    unfold loopRounds
    split_ifs
    · exact ha
    · exact ih _ (fun n hn => hclock n (List.mem_cons_of_mem _ hn))
        (loopBody_oneLine now s (hclock now (List.mem_cons_self _ _)) ha)

/-- C13: for every state the program reaches (construction from any data
file, then any rounds of the menu loop, the clock readings holding no
newline), the text written by `saveHistory` consists of exactly one line per
record of the history, in order, and the line of a record is its kind
character, a space, its amount as the stream writes a `double` (six
significant digits), a space, and its timestamp.  The text is the whole new
content of the file: what the file held before is discarded. -/
theorem saveHistory_one_line_per_record (file previous : Option (List Char))
    (cin : IStream) (clock : List String) (hclock : ∀ now ∈ clock, '\n' ∉ now.data) :
    textLines (saveHistory (loopRounds clock (mainStart file cin)).account previous)
      = (loopRounds clock (mainStart file cin)).account.history.map
          (fun t => t.type :: ' ' :: (formatDouble t.amount ++ ' ' :: t.timestamp.data)) ∧
    (textLines (saveHistory (loopRounds clock (mainStart file cin)).account previous)).length
      = (loopRounds clock (mainStart file cin)).account.history.length ∧
    saveHistory (loopRounds clock (mainStart file cin)).account previous
      = saveHistory (loopRounds clock (mainStart file cin)).account none := by
  have h := textLines_saveLines (loopRounds clock (mainStart file cin)).account.history
    (loopRounds_oneLine clock (mainStart file cin) hclock (defaultAccount_oneLine file))
  have hs : saveHistory (loopRounds clock (mainStart file cin)).account previous
      = saveLines (loopRounds clock (mainStart file cin)).account.history := by
    simp [saveHistory, openTrunc]
  refine ⟨?_, ?_, ?_⟩
  · rw [hs, h]
    rfl
  · rw [hs, h, List.length_map]
  · simp [saveHistory, openTrunc]

/-- Witness of C13: a data file of two records, then a deposit of 10000.15 and
the exit; the saved text has three lines and replaces the two lines the file
held. -/
theorem saveHistory_one_line_per_record_witness :
    (∀ now ∈ ["2024-05-03 08:00:00", "2024-05-03 08:01:00"], '\n' ∉ now.data) ∧
    saveHistory (loopRounds ["2024-05-03 08:00:00", "2024-05-03 08:01:00"]
        (mainStart (some "D 100 2024-05-01 09:30:00\nW 30.5 2024-05-02 10:00:00\n".data)
          (IStream.fresh "Ann\n2\n10000.15\n7\n".data))).account
        (some "D 100 2024-05-01 09:30:00\nW 30.5 2024-05-02 10:00:00\n".data)
      = ("D 100 2024-05-01 09:30:00\nW 30.5 2024-05-02 10:00:00\n"
          ++ "D 10000.1 2024-05-03 08:00:00\n").data ∧
    textLines (saveHistory (loopRounds ["2024-05-03 08:00:00", "2024-05-03 08:01:00"]
        (mainStart (some "D 100 2024-05-01 09:30:00\nW 30.5 2024-05-02 10:00:00\n".data)
          (IStream.fresh "Ann\n2\n10000.15\n7\n".data))).account
        (some "D 100 2024-05-01 09:30:00\nW 30.5 2024-05-02 10:00:00\n".data))
      = ["D 100 2024-05-01 09:30:00".data, "W 30.5 2024-05-02 10:00:00".data,
         "D 10000.1 2024-05-03 08:00:00".data] ∧
    (textLines (saveHistory (loopRounds ["2024-05-03 08:00:00", "2024-05-03 08:01:00"]
        (mainStart (some "D 100 2024-05-01 09:30:00\nW 30.5 2024-05-02 10:00:00\n".data)
          (IStream.fresh "Ann\n2\n10000.15\n7\n".data))).account
        (some "D 100 2024-05-01 09:30:00\nW 30.5 2024-05-02 10:00:00\n".data))).length
      = (loopRounds ["2024-05-03 08:00:00", "2024-05-03 08:01:00"]
        (mainStart (some "D 100 2024-05-01 09:30:00\nW 30.5 2024-05-02 10:00:00\n".data)
          (IStream.fresh "Ann\n2\n10000.15\n7\n".data))).account.history.length :=
  ⟨by decide!, by decide!, by decide!,
   (saveHistory_one_line_per_record
      (some "D 100 2024-05-01 09:30:00\nW 30.5 2024-05-02 10:00:00\n".data)
      (some "D 100 2024-05-01 09:30:00\nW 30.5 2024-05-02 10:00:00\n".data)
      (IStream.fresh "Ann\n2\n10000.15\n7\n".data)
      ["2024-05-03 08:00:00", "2024-05-03 08:01:00"] (by decide!)).2.1⟩

/-! ## Loading against the persisted format -/

theorem extractRecord_of_not_good (fin : IStream) (h : fin.good = false) :
    (extractRecord fin).1 = none := by
  have hs : sentry fin = .error { fin with failbit := true } := by
    unfold sentry
    simp [h]
  have hc : extractChar fin = (none, { fin with failbit := true }) := by
    unfold extractChar
    rw [hs]
  unfold extractRecord
  rw [hc]

/-- A round whose amount ends the input: `getline` leaves `ts` as it was, the
record takes the timestamp of the round before, and the loop ends. -/
theorem loadLoop_round_at_end (fuel : Nat) (fin fin2 : IStream) (ts : String)
    (a : BankAccount) (ty : Char) (amt : Double)
    (hr : extractRecord fin = (some (ty, amt), fin2)) (hg : fin2.good = false) :
    loadLoop (fuel + 1) fin ts a
      = { balance := a.balance.add (replayDelta ty amt),
          history := a.history ++
            [{ amount := amt, type := ty, timestamp := eraseLeadingSpace ts }],
          dataFile := a.dataFile } := by
  have hgl : getline fin2 ts = (ts, { fin2 with failbit := true }) := by
    unfold getline
    simp [hg]
  conv_lhs => unfold loadLoop
  rw [hr]
  dsimp only
  rw [hgl]
  dsimp only
  exact loadLoop_of_fail _ _ _ _ (extractRecord_of_not_good _ (by simp [IStream.good]))

/-- C17: `loadHistory` replays records without validating them.  In every
round of its loop, a record read with a kind character other than `'D'`,
`'W'` or not, and with any amount, is appended with that kind and that amount
and the amount is subtracted from the balance, whatever the balance is.
Consequently the file with the one well-formed line
`W 1000 2024-05-01 09:30:00` gives a negative balance, and a record of kind
`'X'` with a negative amount is stored as it is. -/
theorem loadHistory_replays_unvalidated :
    (∀ (fuel : Nat) (fin fin2 : IStream) (ts : String) (a : BankAccount) (ty : Char)
        (amt : Double),
      extractRecord fin = (some (ty, amt), fin2) → ty ≠ 'D' →
      loadLoop (fuel + 1) fin ts a
        = loadLoop fuel (getline fin2 ts).2 (eraseLeadingSpace (getline fin2 ts).1)
            { balance := a.balance.sub amt,
              history := a.history ++
                [{ amount := amt, type := ty,
                   timestamp := eraseLeadingSpace (getline fin2 ts).1 }],
              dataFile := a.dataFile }) ∧
    defaultAccount (some "W 1000 2024-05-01 09:30:00\n".data)
      = ⟨Double.ofDecimal true 500 0, [⟨Double.ofNat 1000, 'W', "2024-05-01 09:30:00"⟩],
          "transactions.txt"⟩ ∧
    (defaultAccount (some "W 1000 2024-05-01 09:30:00\n".data)).balance.lt Double.zero
      = true ∧
    defaultAccount (some "X -5 t\n".data)
      = ⟨Double.ofNat 505, [⟨Double.ofDecimal true 5 0, 'X', "t"⟩], "transactions.txt"⟩ := by
  refine ⟨?_, by decide!, by decide!, by decide!⟩
  intro fuel fin fin2 ts a ty amt hr hty
  conv_lhs => unfold loadLoop
  rw [hr]
  simp only [replayDelta, hty, if_false, Double.sub]

/-- Witness of C17: one round on the line `X 10 t` from a balance of 3. -/
theorem loadHistory_replays_unvalidated_witness :
    extractRecord (IStream.fresh "X 10 t\n".data)
      = (some ('X', Double.ofNat 10),
         { buf := " t\n".data, eofbit := false, failbit := false }) ∧
    ('X' : Char) ≠ 'D' ∧
    loadLoop 1 (IStream.fresh "X 10 t\n".data) "" ⟨Double.ofNat 3, [], "transactions.txt"⟩
      = ⟨Double.ofDecimal true 7 0, [⟨Double.ofNat 10, 'X', "t"⟩], "transactions.txt"⟩ :=
  ⟨by decide!, by decide,
   (loadHistory_replays_unvalidated.1 0 (IStream.fresh "X 10 t\n".data)
      { buf := " t\n".data, eofbit := false, failbit := false } ""
      ⟨Double.ofNat 3, [], "transactions.txt"⟩ 'X' (Double.ofNat 10)
      (by decide!) (by decide)).trans (by decide!)⟩

end Assignment6
